import Mathlib

/-!
Verification development for the cubspack 3-D bin-packing library.

The Python sources (`cubspack/geometry.py`, `cubspack/pack_algo.py`,
`cubspack/guillotine.py`, `cubspack/maxcubs.py`, `cubspack/packer.py`)
are shallowly embedded below: every class method used by the claims is
translated into an executable Lean function over `Int` coordinates,
mirroring the source's control flow, iteration order and tie-breaking
(Python's `min` keeps the first occurrence of a minimal key; list
comprehensions and `itertools.chain` keep order).  Mutating methods are
rendered as state-passing functions.  Known source quirks (the
`self.depth == self.depth` comparison in `Cuboid.join`, the dead
`_rect_fitness` methods, the `and`/`or` precedence in `_fits_volume`,
the `(w, h, w)` bound box and truncated pair loops of
`validate_packing`, the missing `depth` argument in
`GuillotineMaxas._split`) are reproduced faithfully, not repaired.
-/

namespace Cubspack

/-- Axis-aligned cuboid: low corner `(x, y, z)`, sizes
`width × height × depth`, and an optional identifier `rid`
(mirrors `cubspack.geometry.Cuboid`). -/
structure Cuboid where
  x : Int
  y : Int
  z : Int
  width : Int
  height : Int
  depth : Int
  rid : Option Nat := none
deriving DecidableEq, Repr

instance : Inhabited Cuboid := ⟨⟨0, 0, 0, 0, 0, 0, none⟩⟩

namespace Cuboid

/-- Cuboid bottom edge y coordinate. -/
def bottom (c : Cuboid) : Int := c.y

/-- Cuboid top edge y coordinate. -/
def top (c : Cuboid) : Int := c.y + c.height

/-- Cuboid left edge x coordinate. -/
def left (c : Cuboid) : Int := c.x

/-- Cuboid right edge x coordinate. -/
def right (c : Cuboid) : Int := c.x + c.width

/-- Cuboid farther-from-eye edge z coordinate. -/
def outeye (c : Cuboid) : Int := c.z

/-- Cuboid nearer-to-eye edge z coordinate. -/
def ineye (c : Cuboid) : Int := c.z + c.depth

/-- Cuboid volume. -/
def volume (c : Cuboid) : Int := c.width * c.height * c.depth

/-- `Cuboid.__eq__`: structural equality over origin and size, ignoring
`rid`. -/
def cubEq (a b : Cuboid) : Bool :=
  a.width == b.width && a.height == b.height && a.depth == b.depth &&
  a.x == b.x && a.y == b.y && a.z == b.z

/-- `Cuboid.contains`: the other cuboid lies within closed bounds on all
three axes. -/
def contains (self cub : Cuboid) : Bool :=
  decide (cub.y ≥ self.y) && decide (cub.x ≥ self.x) &&
  decide (cub.z ≥ self.z) &&
  decide (cub.y + cub.height ≤ self.y + self.height) &&
  decide (cub.x + cub.width ≤ self.x + self.width) &&
  decide (cub.z + cub.depth ≤ self.z + self.depth)

/-- `Cuboid.intersects`: the three-stage test of the source — reject
"not even touching", then (without `edges`) reject face touches, then
reject the eight corner-coincidence patterns. -/
def intersects (self cub : Cuboid) (edges : Bool) : Bool :=
  if self.bottom > cub.top ∨ self.top < cub.bottom ∨
      self.left > cub.right ∨ self.right < cub.left ∨
      self.outeye > cub.ineye ∨ self.ineye < cub.outeye then
    false
  else if edges = false ∧ (self.bottom = cub.top ∨ self.top = cub.bottom ∨
      self.left = cub.right ∨ self.right = cub.left ∨
      self.outeye = cub.ineye ∨ self.ineye = cub.outeye) then
    false
  else if (self.left = cub.right ∧ self.bottom = cub.top ∧
        self.outeye = cub.ineye) ∨
      (self.left = cub.right ∧ cub.bottom = self.top ∧
        self.outeye = cub.ineye) ∨
      (self.left = cub.right ∧ self.bottom = cub.top ∧
        cub.outeye = self.ineye) ∨
      (self.left = cub.right ∧ cub.bottom = self.top ∧
        cub.outeye = self.ineye) ∨
      (cub.left = self.right ∧ self.bottom = cub.top ∧
        self.outeye = cub.ineye) ∨
      (cub.left = self.right ∧ cub.bottom = self.top ∧
        self.outeye = cub.ineye) ∨
      (cub.left = self.right ∧ self.bottom = cub.top ∧
        cub.outeye = self.ineye) ∨
      (cub.left = self.right ∧ cub.bottom = self.top ∧
        cub.outeye = self.ineye) then
    false
  else
    true

/-- `Cuboid.intersection`: componentwise `(max lows, min highs)` box, or
`none` when `intersects` fails. -/
def intersection (self cub : Cuboid) (edges : Bool) : Option Cuboid :=
  if intersects self cub edges = false then
    none
  else
    let b := max self.bottom cub.bottom
    let l := max self.left cub.left
    let t := min self.top cub.top
    let r := min self.right cub.right
    let o := max self.outeye cub.outeye
    let i := min self.ineye cub.ineye
    some ⟨l, b, o, r - l, t - b, i - o, none⟩

/-- `Cuboid.join`: in-place union attempt, returned functionally as
`some` of the new value of `self` on success and `none` on failure.
The two comparisons `self.depth = self.depth` reproduce the source's
lines verbatim (the source compares `self.depth` with itself, not with
`other.depth`). -/
def join (self other : Cuboid) : Option Cuboid :=
  if self.contains other then some self
  else if other.contains self then
    some { self with
      x := other.x, y := other.y, z := other.z,
      width := other.width, height := other.height,
      depth := other.depth }
  else if self.intersects other true = false then none
  else if self.left = other.left ∧ self.width = other.width ∧
      self.outeye = other.outeye ∧ self.depth = self.depth then
    let yMin := min self.bottom other.bottom
    let yMax := max self.top other.top
    some { self with y := yMin, height := yMax - yMin }
  else if self.bottom = other.bottom ∧ self.height = other.height ∧
      self.outeye = other.outeye ∧ self.depth = self.depth then
    let xMin := min self.left other.left
    let xMax := max self.right other.right
    some { self with x := xMin, width := xMax - xMin }
  else if self.bottom = other.bottom ∧ self.height = other.height ∧
      self.left = other.left ∧ self.width = other.width then
    let zMin := min self.outeye other.outeye
    let zMax := max self.ineye other.ineye
    some { self with z := zMin, depth := zMax - zMin }
  else none

end Cuboid

/-- A point of the half-open region `[x, x+w) × [y, y+h) × [z, z+d)` of
a cuboid.  For integer cuboids, two cuboids have intersecting interiors
exactly when they share such a point. -/
def inPts (c : Cuboid) (p : Int × Int × Int) : Prop :=
  c.x ≤ p.1 ∧ p.1 < c.x + c.width ∧
  c.y ≤ p.2.1 ∧ p.2.1 < c.y + c.height ∧
  c.z ≤ p.2.2 ∧ p.2.2 < c.z + c.depth

instance (c : Cuboid) (p : Int × Int × Int) : Decidable (inPts c p) := by
  unfold inPts; infer_instance

/-- Interior disjointness of two cuboids: no shared region point. -/
def disj (a b : Cuboid) : Prop :=
  ∀ p, inPts a p → inPts b p → False

/-- Coordinatewise containment of cuboid `a` inside cuboid `b`. -/
def sub (a b : Cuboid) : Prop :=
  b.x ≤ a.x ∧ a.x + a.width ≤ b.x + b.width ∧
  b.y ≤ a.y ∧ a.y + a.height ≤ b.y + b.height ∧
  b.z ≤ a.z ∧ a.z + a.depth ≤ b.z + b.depth

/-- All three dimensions strictly positive. -/
def posDims (c : Cuboid) : Prop :=
  0 < c.width ∧ 0 < c.height ∧ 0 < c.depth

theorem disj_symm {a b : Cuboid} (h : disj a b) : disj b a :=
  fun p hb ha => h p ha hb

theorem inPts_of_sub {a b : Cuboid} (h : sub a b) {p} (hp : inPts a p) :
    inPts b p := by
  obtain ⟨h1, h2, h3, h4, h5, h6⟩ := h
  obtain ⟨q1, q2, q3, q4, q5, q6⟩ := hp
  exact ⟨le_trans h1 q1, lt_of_lt_of_le q2 h2, le_trans h3 q3,
    lt_of_lt_of_le q4 h4, le_trans h5 q5, lt_of_lt_of_le q6 h6⟩

theorem disj_of_sub_left {a b c : Cuboid} (hs : sub a b) (h : disj b c) :
    disj a c :=
  fun p hpa hpc => h p (inPts_of_sub hs hpa) hpc

theorem sub_trans {a b c : Cuboid} (h1 : sub a b) (h2 : sub b c) :
    sub a c := by
  obtain ⟨a1, a2, a3, a4, a5, a6⟩ := h1
  obtain ⟨b1, b2, b3, b4, b5, b6⟩ := h2
  exact ⟨le_trans b1 a1, le_trans a2 b2, le_trans b3 a3,
    le_trans a4 b4, le_trans b5 a5, le_trans a6 b6⟩

theorem disj_sep_x {a b : Cuboid} (h : a.x + a.width ≤ b.x) : disj a b :=
  fun _p hpa hpb =>
    absurd (lt_of_lt_of_le hpa.2.1 (le_trans h hpb.1)) (lt_irrefl _)

theorem disj_sep_y {a b : Cuboid} (h : a.y + a.height ≤ b.y) : disj a b :=
  fun _p hpa hpb =>
    absurd (lt_of_lt_of_le hpa.2.2.2.1 (le_trans h hpb.2.2.1)) (lt_irrefl _)

theorem disj_sep_z {a b : Cuboid} (h : a.z + a.depth ≤ b.z) : disj a b :=
  fun _p hpa hpb =>
    absurd (lt_of_lt_of_le hpa.2.2.2.2.2 (le_trans h hpb.2.2.2.2.1))
      (lt_irrefl _)

/-- Characterization of the strict (`edges = false`) `intersects` test:
it is exactly open-interval overlap on all three axes. -/
theorem intersects_strict_iff (a b : Cuboid) :
    Cuboid.intersects a b false = true ↔
    (a.x < b.x + b.width ∧ b.x < a.x + a.width ∧
     a.y < b.y + b.height ∧ b.y < a.y + a.height ∧
     a.z < b.z + b.depth ∧ b.z < a.z + a.depth) := by
  simp only [Cuboid.intersects, Cuboid.bottom, Cuboid.top, Cuboid.left,
    Cuboid.right, Cuboid.outeye, Cuboid.ineye]
  split_ifs with h1 h2 h3 <;>
    simp only [Bool.false_eq_true, false_iff, true_iff] <;>
    (try simp only [eq_self_iff_true, true_and] at h2) <;> omega

/-- If the strict `intersects` test is false, the interiors are
disjoint. -/
theorem disj_of_intersects_false {a b : Cuboid}
    (h : Cuboid.intersects a b false = false) : disj a b := by
  intro p hpa hpb
  obtain ⟨a1, a2, a3, a4, a5, a6⟩ := hpa
  obtain ⟨b1, b2, b3, b4, b5, b6⟩ := hpb
  have hs : Cuboid.intersects a b false = true :=
    (intersects_strict_iff a b).mpr (by omega)
  rw [h] at hs
  exact absurd hs (by simp)

/-- If both cuboids have positive dimensions and their interiors are
disjoint, the strict `intersects` test is false. -/
theorem intersects_false_of_disj {a b : Cuboid} (ha : posDims a)
    (hb : posDims b) (h : disj a b) : Cuboid.intersects a b false = false := by
  cases hi : Cuboid.intersects a b false
  · rfl
  · exfalso
    obtain ⟨s1, s2, s3, s4, s5, s6⟩ := (intersects_strict_iff a b).mp hi
    obtain ⟨p1, p2, p3⟩ := ha
    obtain ⟨q1, q2, q3⟩ := hb
    refine h (max a.x b.x, max a.y b.y, max a.z b.z) ⟨le_max_left _ _, ?_,
        le_max_left _ _, ?_, le_max_left _ _, ?_⟩
      ⟨le_max_right _ _, ?_, le_max_right _ _, ?_, le_max_right _ _, ?_⟩
    · exact max_lt (by linarith) s2
    · exact max_lt (by linarith) s4
    · exact max_lt (by linarith) s6
    · exact max_lt s1 (by linarith)
    · exact max_lt s3 (by linarith)
    · exact max_lt s5 (by linarith)

/-- A true strict `intersects` yields the six strict overlap
inequalities. -/
theorem stricts_of_intersects_true {a b : Cuboid}
    (ht : Cuboid.intersects a b false = true) :
    a.x < b.x + b.width ∧ b.x < a.x + a.width ∧
    a.y < b.y + b.height ∧ b.y < a.y + a.height ∧
    a.z < b.z + b.depth ∧ b.z < a.z + a.depth :=
  (intersects_strict_iff a b).mp ht

/-- A true touching (`edges = true`) `intersects` yields the six
non-strict touching inequalities. -/
theorem touches_of_intersects_edges {a b : Cuboid}
    (ht : Cuboid.intersects a b true = true) :
    a.x ≤ b.x + b.width ∧ b.x ≤ a.x + a.width ∧
    a.y ≤ b.y + b.height ∧ b.y ≤ a.y + a.height ∧
    a.z ≤ b.z + b.depth ∧ b.z ≤ a.z + a.depth := by
  revert ht
  simp only [Cuboid.intersects, Cuboid.bottom, Cuboid.top, Cuboid.left,
    Cuboid.right, Cuboid.outeye, Cuboid.ineye]
  split_ifs with h1 h2 h3 <;> intro ht
  · exact absurd ht (by simp)
  · exact absurd h2.1 (by simp)
  · exact absurd ht (by simp)
  · omega

end Cubspack

namespace Cubspack

/-- Characterization of `Cuboid.contains` as coordinatewise
containment. -/
theorem contains_iff (a b : Cuboid) :
    Cuboid.contains a b = true ↔ sub b a := by
  simp only [Cuboid.contains, sub, Bool.and_eq_true, decide_eq_true_eq]
  constructor
  · intro h; omega
  · intro h; omega

/-- Characterization of `Cuboid.cubEq` as equality of the six geometric
fields. -/
theorem cubEq_iff (a b : Cuboid) :
    Cuboid.cubEq a b = true ↔
    (a.width = b.width ∧ a.height = b.height ∧ a.depth = b.depth ∧
     a.x = b.x ∧ a.y = b.y ∧ a.z = b.z) := by
  simp only [Cuboid.cubEq, Bool.and_eq_true, beq_iff_eq]
  constructor
  · intro h; omega
  · intro h; omega

/-- Geometric facts about a successful `join` between cuboids whose
near faces lie on a common plane (`ineye` equal): the result covers no
point outside the union of the operands, keeps the same near plane,
keeps positive dimensions, and stays inside any common bounding box. -/
theorem join_props {a b r : Cuboid} (hj : Cuboid.join a b = some r)
    (hin : a.z + a.depth = b.z + b.depth) :
    (∀ p, inPts r p → inPts a p ∨ inPts b p) ∧
    r.z + r.depth = a.z + a.depth ∧
    r.rid = a.rid ∧
    (posDims a → posDims b → posDims r) ∧
    (∀ bin, sub a bin → sub b bin → sub r bin) := by
  revert hj
  unfold Cuboid.join
  split_ifs with h1 h2 h3 h4 h5 h6 <;> intro hj
  · -- self contains other: result is self
    obtain rfl : a = r := Option.some.inj hj
    exact ⟨fun p hp => Or.inl hp, rfl, rfl, fun ha _ => ha, fun _ hsa _ => hsa⟩
  · -- other contains self: result takes other's geometry
    obtain rfl := Option.some.inj hj
    refine ⟨fun p hp => Or.inr ?_, by simpa using hin.symm, rfl,
      fun _ hb => hb, fun _ _ hsb => hsb⟩
    exact hp
  · exact absurd hj (by simp)
  · -- up/down join
    obtain rfl := Option.some.inj hj
    obtain ⟨e1, e2, e3, _⟩ := h4
    simp only [Cuboid.left, Cuboid.width, Cuboid.outeye] at e1 e2 e3
    have htr := touches_of_intersects_edges (Bool.of_not_eq_false h3)
    refine ⟨fun p hp => ?_, by simp, rfl, fun ha hb => ?_, fun bin hsa hsb => ?_⟩
    · simp only [inPts, Cuboid.bottom, Cuboid.top] at hp ⊢
      omega
    · simp only [posDims, Cuboid.bottom, Cuboid.top] at ha hb ⊢
      omega
    · simp only [sub, Cuboid.bottom, Cuboid.top] at hsa hsb ⊢
      omega
  · -- left/right join
    obtain rfl := Option.some.inj hj
    obtain ⟨e1, e2, e3, _⟩ := h5
    simp only [Cuboid.bottom, Cuboid.height, Cuboid.outeye] at e1 e2 e3
    have htr := touches_of_intersects_edges (Bool.of_not_eq_false h3)
    refine ⟨fun p hp => ?_, by simp, rfl, fun ha hb => ?_, fun bin hsa hsb => ?_⟩
    · simp only [inPts, Cuboid.left, Cuboid.right] at hp ⊢
      omega
    · simp only [posDims, Cuboid.left, Cuboid.right] at ha hb ⊢
      omega
    · simp only [sub, Cuboid.left, Cuboid.right] at hsa hsb ⊢
      omega
  · -- in-depth join
    obtain rfl := Option.some.inj hj
    obtain ⟨e1, e2, e3, e4⟩ := h6
    simp only [Cuboid.bottom, Cuboid.height, Cuboid.left,
      Cuboid.width] at e1 e2 e3 e4
    have htr := touches_of_intersects_edges (Bool.of_not_eq_false h3)
    refine ⟨fun p hp => ?_, ?_, rfl, fun ha hb => ?_, fun bin hsa hsb => ?_⟩
    · simp only [inPts, Cuboid.outeye, Cuboid.ineye] at hp ⊢
      omega
    · simp only [Cuboid.outeye, Cuboid.ineye]
      omega
    · simp only [posDims, Cuboid.outeye, Cuboid.ineye] at ha hb ⊢
      omega
    · simp only [sub, Cuboid.outeye, Cuboid.ineye] at hsa hsb ⊢
      omega
  · exact absurd hj (by simp)

end Cubspack

namespace Cubspack

/-- The axis-aligned union claim of `join` fails at this input because
the source compares `self.depth` with itself instead of `other.depth`.
Counterexample operands: `A = (0,0,0, 2,2,2)` and `B = (0,2,0, 2,2,5)`. -/
def joinBugA : Cuboid := ⟨0, 0, 0, 2, 2, 2, none⟩

/-- Second operand of the `join` counterexample. -/
def joinBugB : Cuboid := ⟨0, 2, 0, 2, 2, 5, none⟩

/-- C2: `A.join(B)` on `A = (0,0,0,2,2,2)`, `B = (0,2,0,2,2,5)` reports
success and rewrites `A` to `(0,0,0,2,4,2)`, even though the operands'
depths differ (their shared face does not have matching extent) and the
result misses the point `(0,2,3)` of `B` — so the mutated `A` is not the
axis-aligned union of the original `A` and `B`.  This evaluates the code
at the failing input for the `join`-law claim. -/
theorem join_depth_typo_eval :
    Cuboid.join joinBugA joinBugB = some ⟨0, 0, 0, 2, 4, 2, none⟩ ∧
    joinBugA.depth ≠ joinBugB.depth ∧
    inPts joinBugB (0, 2, 3) ∧
    ¬ inPts ⟨0, 0, 0, 2, 4, 2, none⟩ (0, 2, 3) := by
  refine ⟨by decide, by decide, by decide, by decide⟩

/-- `PackingAlgorithm._fits_volume`: mirrors the source line
`if self.rot and w > self.width or h > self.height: w, h = h, w`
(Python precedence: `(rot and w > W) or (h > H)`), then the final
bound check. -/
def fitsVolume (binW binH binD : Int) (rot : Bool) (w h d : Int) : Bool :=
  let s := if (rot = true ∧ w > binW) ∨ h > binH then (h, w) else (w, h)
  if s.1 > binW ∨ s.2 > binH ∨ d > binD then false else true

/-- `BinFactory.fits_inside`: delegates to the reference bin's
`_fits_volume`; the reference bin has the factory's dimensions and the
packer's rotation flag and is never mutated, so the call is a pure
function of those values. -/
def factoryFitsInside (binW binH binD : Int) (rot : Bool)
    (w h d : Int) : Bool :=
  fitsVolume binW binH binD rot w h d

/-- C8 failing input: with rotation disabled, bin `(10,5,10)` and item
`(3,7,1)`, `_fits_volume` (and so `BinFactory.fits_inside`) returns
`true` although the item's height 7 exceeds the bin height 5: the
misplaced precedence swaps `w`/`h` whenever `h > height` even when
`rot` is false.  The claimed equivalence with
`w ≤ W ∧ h ≤ H ∧ d ≤ D` therefore fails. -/
theorem fits_volume_rot_precedence_eval :
    fitsVolume 10 5 10 false 3 7 1 = true ∧
    factoryFitsInside 10 5 10 false 3 7 1 = true ∧
    ¬ ((3 : Int) ≤ 10 ∧ (7 : Int) ≤ 5 ∧ (1 : Int) ≤ 10) := by
  refine ⟨by decide, by decide, by decide⟩

end Cubspack

namespace Cubspack

instance (c : Cuboid) : Decidable (posDims c) := by
  unfold posDims; infer_instance

instance (a b : Cuboid) : Decidable (sub a b) := by
  unfold sub; infer_instance

end Cubspack

namespace Cubspack

/-- Section-selection criteria of the Guillotine family
(`GuillotineBvf`, `GuillotineBlsf`, `GuillotineBssf`). -/
inductive GFit where
  | bvf
  | blsf
  | bssf
deriving DecidableEq, Repr

/-- Split-selection rules of the Guillotine family (`GuillotineSas`,
`GuillotineLas`, `GuillotineSlas`, `GuillotineLlas`, `GuillotineMaxas`,
`GuillotineMinas`). -/
inductive GSplit where
  | sas
  | las
  | slas
  | llas
  | maxas
  | minas
deriving DecidableEq, Repr

/-- Construction data of a Guillotine bin: dimensions, rotation flag,
merge flag and the two mixin choices. -/
structure GConf where
  width : Int
  height : Int
  depth : Int
  rot : Bool
  merge : Bool
  fit : GFit
  split : GSplit
deriving DecidableEq, Repr

/-- Mutable state of a Guillotine bin: the free-section list and the
placed-cuboid list. -/
structure GState where
  sections : List Cuboid
  cuboids : List Cuboid
deriving DecidableEq, Repr

/-- `_section_fitness` of the three fitness subclasses: `none` when the
cuboid exceeds the section on any axis, otherwise the subclass score. -/
def sectionFitness (f : GFit) (s : Cuboid) (w h d : Int) : Option Int :=
  if w > s.width ∨ h > s.height ∨ d > s.depth then none
  else some (match f with
    | .bvf => s.volume - w * h * d
    | .blsf => max (s.width - w) (max (s.height - h) (s.depth - d))
    | .bssf => min (s.width - w) (min (s.height - h) (s.depth - d)))

/-- Python's `min(..., key=itemgetter(0))` over a list of scored
candidates: the first candidate with the minimal score (replacement only
on strictly smaller keys). -/
def firstMinBy {α : Type} (l : List (Int × α)) : Option (Int × α) :=
  l.foldl (fun acc c =>
    match acc with
    | none => some c
    | some b => if c.1 < b.1 then some c else some b) none

/-- `Guillotine._select_fittest_section`: scored candidates in list
order, first the unrotated orientation then (when rotation is enabled)
the rotated one, resolved by first-minimum. -/
def selectFittestSection (cfg : GConf) (sections : List Cuboid)
    (w h d : Int) : Option (Cuboid × Bool) :=
  let fitn := sections.filterMap fun s =>
    (sectionFitness cfg.fit s w h d).map fun f => (f, (s, false))
  let fitr := if cfg.rot then
      sections.filterMap fun s =>
        (sectionFitness cfg.fit s h w d).map fun f => (f, (s, true))
    else []
  (firstMinBy (fitn ++ fitr)).map (fun c => c.2)

/-- Python's `list.remove` with `Cuboid.__eq__`: delete the first
element structurally equal to the given cuboid. -/
def eraseCub : List Cuboid → Cuboid → List Cuboid
  | [], _ => []
  | s :: rest, c => if Cuboid.cubEq s c then rest else s :: eraseCub rest c

/-- One pass of the merge loop in `Guillotine._add_section`: the list
comprehension `[s for s in sections if not section.join(s)]`, with the
growing `section` threaded through (Python mutates `section` in place
inside the comprehension). -/
def joinPass (sec : Cuboid) : List Cuboid → Cuboid × List Cuboid
  | [] => (sec, [])
  | s :: rest =>
    match Cuboid.join sec s with
    | some sec2 => joinPass sec2 rest
    | none =>
      let r := joinPass sec rest
      (r.1, s :: r.2)

/-- The `while` loop of `Guillotine._add_section`: repeat `joinPass`
until the section list keeps its length.  The fuel
`sections.length + 1` dominates the possible iterations because every
continued iteration strictly shrinks the list. -/
def mergeLoop : Nat → Cuboid → List Cuboid → Cuboid × List Cuboid
  | 0, sec, ss => (sec, ss)
  | fuel + 1, sec, ss =>
    if ss.isEmpty then (sec, ss)
    else
      let r := joinPass sec ss
      if r.2.length = ss.length then r else mergeLoop fuel r.1 r.2

/-- `Guillotine._add_section`: merge the new section into the existing
ones when merging is enabled, then append.  (The source also resets the
section's `rid` to a sentinel; `rid` plays no role in any comparison
used here, so it is left untouched.) -/
def addSection (merge : Bool) (sections : List Cuboid) (sec : Cuboid) :
    List Cuboid :=
  if merge then
    let r := mergeLoop (sections.length + 1) sec sections
    r.2 ++ [r.1]
  else sections ++ [sec]

/-- The up-to-three offcuts of `Guillotine._split_horizontal`, in
emission order: top (full section width), beside (item height), behind
(item footprint). -/
def hOffcuts (sec : Cuboid) (w h d : Int) : List Cuboid :=
  (if h < sec.height then
    [⟨sec.x, sec.y + h, sec.z, sec.width, sec.height - h, sec.depth, none⟩]
  else []) ++
  (if w < sec.width then
    [⟨sec.x + w, sec.y, sec.z, sec.width - w, h, sec.depth, none⟩]
  else []) ++
  (if d < sec.depth then
    [⟨sec.x, sec.y, sec.z + d, w, h, sec.depth - d, none⟩]
  else [])

/-- The up-to-three offcuts of `Guillotine._split_vertical`, in
emission order: top (item width), beside (full section height), behind
(item footprint). -/
def vOffcuts (sec : Cuboid) (w h d : Int) : List Cuboid :=
  (if h < sec.height then
    [⟨sec.x, sec.y + h, sec.z, w, sec.height - h, sec.depth, none⟩]
  else []) ++
  (if w < sec.width then
    [⟨sec.x + w, sec.y, sec.z, sec.width - w, sec.height, sec.depth, none⟩]
  else []) ++
  (if d < sec.depth then
    [⟨sec.x, sec.y, sec.z + d, w, h, sec.depth - d, none⟩]
  else [])

/-- `Guillotine._split` as dispatched by the six split-rule mixins,
returning the offcut list to feed through `_add_section`.  `none`
renders the `TypeError` of `GuillotineMaxas._split`, whose two calls
omit the `depth` argument: the exception fires before any offcut is
added (but after the chosen section was removed by `add_cub`). -/
def gSplitOffcuts (split : GSplit) (sec : Cuboid) (w h d : Int) :
    Option (List Cuboid) :=
  match split with
  | .sas => some (if sec.width < sec.height then hOffcuts sec w h d
      else vOffcuts sec w h d)
  | .las => some (if sec.width ≥ sec.height then hOffcuts sec w h d
      else vOffcuts sec w h d)
  | .slas => some (if sec.width - w < sec.height - h then hOffcuts sec w h d
      else vOffcuts sec w h d)
  | .llas => some (if sec.width - w ≥ sec.height - h then hOffcuts sec w h d
      else vOffcuts sec w h d)
  | .maxas => none
  | .minas => some (if w * ((sec.height - h) + (sec.depth - d)) ≥
        h * ((sec.width - w) + (sec.depth - d)) then hOffcuts sec w h d
      else vOffcuts sec w h d)

/-- Result of a single-bin `add_cub`: a placed cuboid, the `None`
sentinel, or a propagated Python exception. -/
inductive AddRet where
  | placed (c : Cuboid)
  | nofit
  | err
deriving DecidableEq, Repr

/-- `Guillotine.add_cub`: select the fittest section, remove it, split
it around the (possibly rotated) item and record the placed cuboid at
the section's origin. -/
def gAddCub (cfg : GConf) (st : GState) (w h d : Int) (rid : Option Nat) :
    GState × AddRet :=
  match selectFittestSection cfg st.sections w h d with
  | none => (st, .nofit)
  | some (sec, rotated) =>
    let s := if rotated then (h, w) else (w, h)
    let rest := eraseCub st.sections sec
    match gSplitOffcuts cfg.split sec s.1 s.2 d with
    | none => ({ st with sections := rest }, .err)
    | some offs =>
      let newSecs := offs.foldl (addSection cfg.merge) rest
      let cub : Cuboid := ⟨sec.x, sec.y, sec.z, s.1, s.2, d, rid⟩
      ({ sections := newSecs, cuboids := st.cuboids ++ [cub] }, .placed cub)

/-- `Guillotine.fitness`: fitness of the selected section in the chosen
orientation. -/
def gFitness (cfg : GConf) (st : GState) (w h d : Int) : Option Int :=
  match selectFittestSection cfg st.sections w h d with
  | none => none
  | some (sec, rotated) =>
    if rotated then sectionFitness cfg.fit sec h w d
    else sectionFitness cfg.fit sec w h d

/-- `Guillotine.reset`: a single free section covering the whole bin. -/
def gInit (cfg : GConf) : GState :=
  { sections := addSection cfg.merge []
      ⟨0, 0, 0, cfg.width, cfg.height, cfg.depth, none⟩,
    cuboids := [] }

/-- Run a sequence of `add_cub` calls against a fresh Guillotine bin;
each item is `(w, h, d, rid)`. -/
def gRun (cfg : GConf) (items : List (Int × Int × Int × Option Nat)) :
    GState :=
  items.foldl
    (fun st it => (gAddCub cfg st it.1 it.2.1 it.2.2.1 it.2.2.2).1)
    (gInit cfg)

end Cubspack

namespace Cubspack

/-- Configuration of scenario S2: bin `(10,10,10)`, `GuillotineBssfSas`
with the constructor defaults `rot=True`, `merge=True`. -/
def cfgS2 : GConf := ⟨10, 10, 10, true, true, .bssf, .sas⟩

/-- C6 counterexample: placing `(4,4,4)` into a fresh
`GuillotineBssfSas(10,10,10)` bin does not produce the free section
`(0,4,0,10,6,10)` claimed by the spec.  The SAS rule compares
`section.width < section.height`, which is false on the square bin
section, so the split is vertical, not horizontal. -/
theorem guillotine_s2_claimed_section_missing :
    ¬ (⟨0, 4, 0, 10, 6, 10, none⟩ : Cuboid) ∈
      (gAddCub cfgS2 (gInit cfgS2) 4 4 4 none).1.sections := by
  decide

/-- C6 amended: the item is placed at `(0,0,0,4,4,4)` and the free
sections after the (vertical) split are exactly `(0,4,0,4,6,10)`,
`(4,0,0,6,10,10)` and `(0,0,4,4,4,6)`, in this order. -/
theorem guillotine_s2_actual_state :
    gAddCub cfgS2 (gInit cfgS2) 4 4 4 none =
    ({ sections := [⟨0, 4, 0, 4, 6, 10, none⟩, ⟨4, 0, 0, 6, 10, 10, none⟩,
        ⟨0, 0, 4, 4, 4, 6, none⟩],
       cuboids := [⟨0, 0, 0, 4, 4, 4, none⟩] },
     .placed ⟨0, 0, 0, 4, 4, 4, none⟩) := by
  decide

/-- `PackingAlgorithm.validate_packing`, returned as `true` when the
method raises.  Faithful to the source: the bounding box is built as
`Cuboid(0, 0, 0, self.width, self.height, self.width)` (the width is
reused as the depth), and the collision loops run over
`range(0, len-2) × range(c1+1, len-1)`. -/
def validatePackingRaises (binW binH : Int) (cubs : List Cuboid) : Bool :=
  let vol : Cuboid := ⟨0, 0, 0, binW, binH, binW, none⟩
  (cubs.any fun c => !(Cuboid.contains vol c)) ||
  ((List.range (cubs.length - 2)).any fun c1 =>
    ((List.range' (c1 + 1) ((cubs.length - 1) - (c1 + 1))).any fun c2 =>
      Cuboid.intersects (cubs.getD c1 default) (cubs.getD c2 default) false))

/-- Guillotine configuration for the C4 failing input: bin `(2,2,5)`. -/
def cfgC4 : GConf := ⟨2, 2, 5, true, true, .bssf, .sas⟩

/-- C4 failing input: after `GuillotineBssfSas(2,2,5).add_cub(1,1,4)`
the single placed item `(0,0,0,1,1,4)` lies inside the bin `2×2×5` and
there is no intersecting pair, yet `validate_packing` raises, because
it checks containment against `Cuboid(0,0,0,width,height,width)`
= `(2,2,2)` — the bin's width is used in place of its depth. -/
theorem validate_packing_depth_bound_eval :
    (gAddCub cfgC4 (gInit cfgC4) 1 1 4 none).2 =
      .placed ⟨0, 0, 0, 1, 1, 4, none⟩ ∧
    (gAddCub cfgC4 (gInit cfgC4) 1 1 4 none).1.cuboids =
      [⟨0, 0, 0, 1, 1, 4, none⟩] ∧
    Cuboid.contains ⟨0, 0, 0, 2, 2, 5, none⟩ ⟨0, 0, 0, 1, 1, 4, none⟩ = true ∧
    validatePackingRaises 2 2 [⟨0, 0, 0, 1, 1, 4, none⟩] = true := by
  refine ⟨by decide, by decide, by decide, by decide⟩

/-- C4, second divergence: `validate_packing` misses collisions that
involve the last placed cuboid — with two coincident cuboids the pair
loops `range(0, len-2) × range(c1+1, len-1)` are empty, so no exception
is raised although the two items strictly intersect. -/
theorem validate_packing_pair_loop_eval :
    Cuboid.intersects ⟨0, 0, 0, 2, 2, 2, some 1⟩ ⟨0, 0, 0, 2, 2, 2, some 2⟩
      false = true ∧
    validatePackingRaises 10 10
      [⟨0, 0, 0, 2, 2, 2, some 1⟩, ⟨0, 0, 0, 2, 2, 2, some 2⟩] = false := by
  refine ⟨by decide, by decide⟩

end Cubspack

namespace Cubspack

/-- The MaxCubs variants.  `bssf`, `baf` and `blsf` each define a
`_rect_fitness` method, but nothing in the class hierarchy ever calls
`_rect_fitness` — the base `_select_position` and `fitness` use
`_cub_fitness` — so those three variants behave exactly like the base
class.  Only `MaxCubsBl` overrides `_select_position`. -/
inductive MVariant where
  | base
  | bl
  | bssf
  | baf
  | blsf
deriving DecidableEq, Repr

/-- Mutable state of a MaxCubs bin: the maximal-cuboid list and the
placed-cuboid list. -/
structure MState where
  maxCubs : List Cuboid
  cuboids : List Cuboid
deriving DecidableEq, Repr

/-- `MaxCubs._cub_fitness`: `0` when the cuboid fits inside the maximal
cuboid, `none` otherwise. -/
def cubFitness (m : Cuboid) (w h d : Int) : Option Int :=
  if w ≤ m.width ∧ h ≤ m.height ∧ d ≤ m.depth then some 0 else none

/-- `MaxCubsBssf._rect_fitness` (dead code in the source: no caller
refers to `_rect_fitness`): the short-side leftover. -/
def rectFitnessBssf (m : Cuboid) (w h d : Int) : Option Int :=
  if w > m.width ∨ h > m.height ∨ d > m.depth then none
  else some (min (m.width - w) (min (m.height - h) (m.depth - d)))

/-- `MaxCubs._select_position` (shared by `base`, `bssf`, `baf`,
`blsf`) and the `MaxCubsBl` override: scored candidates in list order,
unrotated first, resolved by first-minimum on the score. -/
def selectPosition (v : MVariant) (rot : Bool) (maxCubs : List Cuboid)
    (w h d : Int) : Option (Cuboid × Cuboid) :=
  match v with
  | .bl =>
    let fitn := maxCubs.filterMap fun m =>
      if (cubFitness m w h d).isSome then some (m.y + h, (w, h, d, m))
      else none
    let fitr := if rot then
        maxCubs.filterMap fun m =>
          if (cubFitness m h w d).isSome then some (m.y + w, (h, w, d, m))
          else none
      else []
    (firstMinBy (fitn ++ fitr)).map fun c =>
      (⟨c.2.2.2.2.x, c.2.2.2.2.y, c.2.2.2.2.z, c.2.1, c.2.2.1, c.2.2.2.1,
        none⟩, c.2.2.2.2)
  | _ =>
    let fitn := maxCubs.filterMap fun m =>
      (cubFitness m w h d).map fun f => (f, (w, h, d, m))
    let fitr := if rot then
        maxCubs.filterMap fun m =>
          (cubFitness m h w d).map fun f => (f, (h, w, d, m))
      else []
    (firstMinBy (fitn ++ fitr)).map fun c =>
      (⟨c.2.2.2.2.x, c.2.2.2.2.y, c.2.2.2.2.z, c.2.1, c.2.2.1, c.2.2.2.1,
        none⟩, c.2.2.2.2)

/-- `MaxCubs._generate_splits`: the up-to-five successor slabs of a
maximal cuboid `m` around the placed cuboid `c`, in source order (left,
right, top, bottom, in-depth).  The in-depth slab deliberately takes
the item's x/y footprint, as the source does. -/
def generateSplits (m c : Cuboid) : List Cuboid :=
  (if c.left > m.left then
    [⟨m.left, m.bottom, m.outeye, c.left - m.left, m.height, m.depth, none⟩]
  else []) ++
  (if c.right < m.right then
    [⟨c.right, m.bottom, m.outeye, m.right - c.right, m.height, m.depth,
      none⟩]
  else []) ++
  (if c.top < m.top then
    [⟨m.left, c.top, m.outeye, m.width, m.top - c.top, m.depth, none⟩]
  else []) ++
  (if c.bottom > m.bottom then
    [⟨m.left, m.bottom, m.outeye, m.width, c.bottom - m.bottom, m.depth,
      none⟩]
  else []) ++
  (if c.ineye < m.ineye then
    [⟨c.left, c.bottom, c.ineye, c.width, c.height, m.ineye - c.ineye, none⟩]
  else [])

/-- `MaxCubs._split`: rebuild the maximal-cuboid list, replacing each
cuboid that strictly intersects the placed cuboid by its successor
slabs. -/
def mSplit (maxCubs : List Cuboid) (cub : Cuboid) : List Cuboid :=
  maxCubs.flatMap fun m =>
    if Cuboid.intersects m cub false then generateSplits m cub else [m]

/-- `itertools.combinations(l, 2)` in order. -/
def combPairs : List Cuboid → List (Cuboid × Cuboid)
  | [] => []
  | x :: xs => (xs.map fun y => (x, y)) ++ combPairs xs

/-- The `contained` set of `MaxCubs._remove_duplicates`: for each
combination pair, the member contained by the other (the `elif` keeps
only the second member when both contain each other). -/
def containedOf (l : List Cuboid) : List Cuboid :=
  (combPairs l).foldl
    (fun acc pr =>
      if Cuboid.contains pr.1 pr.2 then acc ++ [pr.2]
      else if Cuboid.contains pr.2 pr.1 then acc ++ [pr.1]
      else acc) []

/-- `MaxCubs._remove_duplicates`: drop every list member structurally
equal to some member of the contained set. -/
def removeDuplicates (l : List Cuboid) : List Cuboid :=
  let con := containedOf l
  l.filter fun m => !(con.any fun c => Cuboid.cubEq m c)

/-- `MaxCubs.add_cub`: select the best position, subdivide every
intersecting maximal cuboid, prune contained ones, then record the
placed cuboid. -/
def mAddCub (v : MVariant) (rot : Bool) (st : MState) (w h d : Int)
    (rid : Option Nat) : MState × AddRet :=
  match selectPosition v rot st.maxCubs w h d with
  | none => (st, .nofit)
  | some (cub, _) =>
    let mc := removeDuplicates (mSplit st.maxCubs cub)
    let cub := { cub with rid := rid }
    ({ maxCubs := mc, cuboids := st.cuboids ++ [cub] }, .placed cub)

/-- `MaxCubs.fitness`: `_cub_fitness` of the selected maximal cuboid at
the selected orientation (never `_rect_fitness`). -/
def mFitness (v : MVariant) (rot : Bool) (st : MState) (w h d : Int) :
    Option Int :=
  match selectPosition v rot st.maxCubs w h d with
  | none => none
  | some (cub, maxCub) => cubFitness maxCub cub.width cub.height cub.depth

/-- `MaxCubs.reset`: a single maximal cuboid covering the whole bin. -/
def mInit (w h d : Int) : MState :=
  { maxCubs := [⟨0, 0, 0, w, h, d, none⟩], cuboids := [] }

/-- Run a sequence of `add_cub` calls against a fresh MaxCubs bin. -/
def mRun (v : MVariant) (rot : Bool) (w h d : Int)
    (items : List (Int × Int × Int × Option Nat)) : MState :=
  items.foldl
    (fun st it => (mAddCub v rot st it.1 it.2.1 it.2.2.1 it.2.2.2).1)
    (mInit w h d)

end Cubspack

namespace Cubspack

/-- C7 (scenario S3): placing `(4,4,4)` into a fresh
`MaxCubsBssf(10,10,10)` bin places it at `(0,0,0,4,4,4)` and leaves,
after duplicate pruning, exactly the maximal cuboids
`(4,0,0,6,10,10)`, `(0,4,0,10,6,10)` and `(0,0,4,4,4,6)`; the
zero-size left and bottom slabs are omitted by the strictness guards of
`_generate_splits`. -/
theorem maxcubs_s3_state :
    mAddCub .bssf true (mInit 10 10 10) 4 4 4 none =
    ({ maxCubs := [⟨4, 0, 0, 6, 10, 10, none⟩, ⟨0, 4, 0, 10, 6, 10, none⟩,
        ⟨0, 0, 4, 4, 4, 6, none⟩],
       cuboids := [⟨0, 0, 0, 4, 4, 4, none⟩] },
     .placed ⟨0, 0, 0, 4, 4, 4, none⟩) := by
  decide

end Cubspack

namespace Cubspack

/-- The single-bin algorithm class handed to a packer (`pack_algo`). -/
inductive PackAlgoKind where
  | guillotine (fit : GFit) (split : GSplit) (merge : Bool)
  | maxcubs (v : MVariant)
deriving DecidableEq, Repr

/-- A bin held by a packer: a single-bin algorithm instance together
with its construction data. -/
inductive BinState where
  | g (cfg : GConf) (st : GState)
  | mx (v : MVariant) (rot : Bool) (width height depth : Int) (st : MState)
deriving DecidableEq, Repr

instance : Inhabited BinState :=
  ⟨.mx .base true 0 0 0 (mInit 0 0 0)⟩

/-- `BinFactory._create_bin`: a fresh empty bin of the factory's
dimensions. -/
def binNew (kind : PackAlgoKind) (w h d : Int) (rot : Bool) : BinState :=
  match kind with
  | .guillotine fit split merge =>
    .g ⟨w, h, d, rot, merge, fit, split⟩
      (gInit ⟨w, h, d, rot, merge, fit, split⟩)
  | .maxcubs v => .mx v rot w h d (mInit w h d)

/-- Width, height and depth of a bin. -/
def binDims (b : BinState) : Int × Int × Int :=
  match b with
  | .g cfg _ => (cfg.width, cfg.height, cfg.depth)
  | .mx _ _ w h d _ => (w, h, d)

/-- Dispatch of `add_cub` to the bin's algorithm. -/
def binAddCub (b : BinState) (w h d : Int) (rid : Option Nat) :
    BinState × AddRet :=
  match b with
  | .g cfg st =>
    let r := gAddCub cfg st w h d rid
    (.g cfg r.1, r.2)
  | .mx v rot bw bh bd st =>
    let r := mAddCub v rot st w h d rid
    (.mx v rot bw bh bd r.1, r.2)

/-- Dispatch of `fitness` to the bin's algorithm. -/
def binFitness (b : BinState) (w h d : Int) : Option Int :=
  match b with
  | .g cfg st => gFitness cfg st w h d
  | .mx v rot _ _ _ st => mFitness v rot st w h d

/-- Placed cuboids of a bin, in placement order. -/
def binCuboids (b : BinState) : List Cuboid :=
  match b with
  | .g _ st => st.cuboids
  | .mx _ _ _ _ _ st => st.cuboids

/-- `BinFactory`: template dimensions plus the remaining count. -/
structure BinFac where
  width : Int
  height : Int
  depth : Int
  count : Nat
deriving DecidableEq, Repr

/-- On-line packer state: `PackerOnline`'s closed and open bin deques,
the ordered dictionary of empty-bin factories, and the key counter. -/
structure PackerState where
  kind : PackAlgoKind
  rot : Bool
  closed : List BinState
  opened : List BinState
  factories : List (Nat × BinFac)
  binCount : Nat
deriving DecidableEq, Repr

/-- A Python-level return value of a packer `add_cub`: the classes
return `None`, a `Cuboid`, or (for the BBF mixin) a boolean; `exc`
stands for a propagating exception. -/
inductive PyRet where
  | pyNone
  | cub (c : Cuboid)
  | pyBool (b : Bool)
  | exc
deriving DecidableEq, Repr

/-- Iteration of `PackerOnline._new_open_bin` over the factory
dictionary: skip factories whose reference bin rejects the item and
depleted factories, open a bin from the first remaining one (removing
the factory when that bin was its last). -/
def newOpenBinGo (kind : PackAlgoKind) (rot : Bool) (w h d : Int) :
    List (Nat × BinFac) → List (Nat × BinFac) × Option BinState
  | [] => ([], none)
  | (k, f) :: rest =>
    if factoryFitsInside f.width f.height f.depth rot w h d = false then
      let r := newOpenBinGo kind rot w h d rest
      ((k, f) :: r.1, r.2)
    else if f.count = 0 then
      let r := newOpenBinGo kind rot w h d rest
      ((k, f) :: r.1, r.2)
    else
      let f2 : BinFac := { f with count := f.count - 1 }
      let keep := if f2.count = 0 then rest else (k, f2) :: rest
      (keep, some (binNew kind f.width f.height f.depth rot))

/-- `PackerOnline._new_open_bin`: also appends the new bin to the open
deque. -/
def newOpenBin (st : PackerState) (w h d : Int) :
    PackerState × Option BinState :=
  let r := newOpenBinGo st.kind st.rot w h d st.factories
  match r.2 with
  | none => ({ st with factories := r.1 }, none)
  | some nb =>
    ({ st with factories := r.1, opened := st.opened ++ [nb] }, some nb)

/-- Total remaining factory inventory, used to size loop fuel. -/
def totalFacCount (st : PackerState) : Nat :=
  (st.factories.map fun kf => kf.2.count).sum

/-- `PackerBNFMixin.add_cub`: keep one open bin; on failure close it
and open the next factory bin that accepts the item. -/
def bnfAddCub : Nat → PackerState → Int → Int → Int → Option Nat →
    PackerState × PyRet
  | 0, st, _, _, _, _ => (st, .exc)
  | fuel + 1, st, w, h, d, rid =>
    match st.opened with
    | [] =>
      let r := newOpenBin st w h d
      match r.2 with
      | none => (r.1, .pyNone)
      | some _ => bnfAddCub fuel r.1 w h d rid
    | b :: rest =>
      let r := binAddCub b w h d rid
      match r.2 with
      | .placed c => ({ st with opened := r.1 :: rest }, .cub c)
      | .err => ({ st with opened := r.1 :: rest }, .exc)
      | .nofit =>
        bnfAddCub fuel
          { st with opened := rest, closed := st.closed ++ [r.1] } w h d rid

/-- The `for b in self._open_bins` loop of `PackerBFFMixin.add_cub`:
`none` when no open bin takes the item. -/
def bffTryBins : List BinState → Int → Int → Int → Option Nat →
    Option (List BinState × PyRet)
  | [], _, _, _, _ => none
  | b :: rest, w, h, d, rid =>
    let r := binAddCub b w h d rid
    match r.2 with
    | .placed c => some (r.1 :: rest, .cub c)
    | .err => some (r.1 :: rest, .exc)
    | .nofit =>
      (bffTryBins rest w h d rid).map fun pr => (r.1 :: pr.1, pr.2)

/-- The `while True` loop of `PackerBFFMixin.add_cub`: open factory
bins until one takes the item (a freshly opened bin is re-checked by a
real `add_cub`). -/
def bffOpenLoop : Nat → PackerState → Int → Int → Int → Option Nat →
    PackerState × PyRet
  | 0, st, _, _, _, _ => (st, .exc)
  | fuel + 1, st, w, h, d, rid =>
    let r := newOpenBin st w h d
    match r.2 with
    | none => (r.1, .pyNone)
    | some nb =>
      let q := binAddCub nb w h d rid
      let st2 := { r.1 with opened := r.1.opened.dropLast ++ [q.1] }
      match q.2 with
      | .placed c => (st2, .cub c)
      | .err => (st2, .exc)
      | .nofit => bffOpenLoop fuel st2 w h d rid

/-- `PackerBFFMixin.add_cub`. -/
def bffAddCub (st : PackerState) (w h d : Int) (rid : Option Nat) :
    PackerState × PyRet :=
  match bffTryBins st.opened w h d rid with
  | some pr => ({ st with opened := pr.1 }, pr.2)
  | none => bffOpenLoop (totalFacCount st + 1) st w h d rid

/-- The `while True` loop of `PackerBBFMixin.add_cub` after no open bin
reported a fitness. -/
def bbfOpenLoop : Nat → PackerState → Int → Int → Int → Option Nat →
    PackerState × PyRet
  | 0, st, _, _, _, _ => (st, .exc)
  | fuel + 1, st, w, h, d, rid =>
    let r := newOpenBin st w h d
    match r.2 with
    | none => (r.1, .pyBool false)
    | some nb =>
      let q := binAddCub nb w h d rid
      let st2 := { r.1 with opened := r.1.opened.dropLast ++ [q.1] }
      match q.2 with
      | .placed _ => (st2, .pyBool true)
      | .err => (st2, .exc)
      | .nofit => bbfOpenLoop fuel st2 w h d rid

/-- `PackerBBFMixin.add_cub`: place into the open bin with minimal
fitness (first on ties, by Python's `min`), returning `True`; the
result of the inner `add_cub` is discarded by the source.  With no
accepting open bin, fall through to the factory loop, which returns
`False` on exhaustion. -/
def bbfAddCub (st : PackerState) (w h d : Int) (rid : Option Nat) :
    PackerState × PyRet :=
  let cands := st.opened.enum.filterMap fun ib =>
    (binFitness ib.2 w h d).map fun f => (f, ib.1)
  match firstMinBy cands with
  | some fi =>
    let b := st.opened.getD fi.2 default
    let r := binAddCub b w h d rid
    match r.2 with
    | .err => ({ st with opened := st.opened.set fi.2 r.1 }, .exc)
    | _ => ({ st with opened := st.opened.set fi.2 r.1 }, .pyBool true)
  | none => bbfOpenLoop (totalFacCount st + 1) st w h d rid

/-- The bin-selection heuristics of the multi-bin packers. -/
inductive BinSel where
  | bnf
  | bff
  | bbf
deriving DecidableEq, Repr

/-- Dispatch of the mixin `add_cub` methods. -/
def selAddCub (sel : BinSel) (st : PackerState) (w h d : Int)
    (rid : Option Nat) : PackerState × PyRet :=
  match sel with
  | .bnf => bnfAddCub (st.opened.length + 2 * totalFacCount st + 1) st w h d rid
  | .bff => bffAddCub st w h d rid
  | .bbf => bbfAddCub st w h d rid

/-- `PackerOnline.cub_list`: flat `(bin index, x, y, z, w, h, d, rid)`
records over closed then open bins. -/
def cubListOf (st : PackerState) :
    List (Nat × Int × Int × Int × Int × Int × Int × Option Nat) :=
  (st.closed ++ st.opened).enum.flatMap fun ib =>
    (binCuboids ib.2).map fun c =>
      (ib.1, c.x, c.y, c.z, c.width, c.height, c.depth, c.rid)

/-- `PackerOnline.bin_list`: dimensions of closed then open bins. -/
def binListOf (st : PackerState) : List (Int × Int × Int) :=
  (st.closed ++ st.opened).map binDims

end Cubspack

namespace Cubspack

/-- An item registered with an off-line packer: `(w, h, d, rid)`. -/
abbrev CubSpec := Int × Int × Int × Option Nat

/-- A bin template registered with an off-line packer:
`(w, h, d, count)`. -/
abbrev BinSpec := Int × Int × Int × Nat

/-- Off-line packer state (`Packer`): the configuration, the pending
bin templates and items (`_avail_bins`, `_avail_cub`), and the
caller-chosen sort key. -/
structure OffState where
  kind : PackAlgoKind
  rot : Bool
  sortAlgo : List CubSpec → List CubSpec
  availBins : List BinSpec
  availCub : List CubSpec

/-- `PackerOnline.reset` for a packer with the given configuration. -/
def offReset (o : OffState) : PackerState :=
  { kind := o.kind, rot := o.rot, closed := [], opened := [],
    factories := [], binCount := 0 }

/-- The bin-forwarding loop of `Packer.pack`: each template becomes a
factory keyed by the running bin counter. -/
def addFactories (ps : PackerState) (bins : List BinSpec) : PackerState :=
  bins.foldl
    (fun ps b =>
      { ps with
        factories := ps.factories ++
          [(ps.binCount, ⟨b.1, b.2.1, b.2.2.1, b.2.2.2⟩)],
        binCount := ps.binCount + 1 })
    ps

/-- The item loop of `Packer.pack`; a propagating exception aborts the
remaining items, leaving the partial state. -/
def packLoop (sel : BinSel) : List CubSpec → PackerState → PackerState
  | [], ps => ps
  | it :: rest, ps =>
    let r := selAddCub sel ps it.1 it.2.1 it.2.2.1 it.2.2.2
    match r.2 with
    | .exc => r.1
    | _ => packLoop sel rest r.1

/-- `Packer.pack` for the BNF/BFF/BBF off-line packers: reset, bail out
when either pending list is empty, forward the bin templates, sort the
items once, and feed them through the mixin `add_cub`. -/
def packOffline (sel : BinSel) (o : OffState) : PackerState :=
  let ps := offReset o
  if o.availCub.isEmpty || o.availBins.isEmpty then ps
  else packLoop sel (o.sortAlgo o.availCub) (addFactories ps o.availBins)

/-- `PackerGlobal._find_best_fit`: key of the pending item with the
lowest fitness against the bin (first on ties). -/
def findBestFit (b : BinState) (pending : List (Nat × CubSpec)) :
    Option Nat :=
  (firstMinBy (pending.filterMap fun kc =>
    (binFitness b kc.2.1 kc.2.2.1 kc.2.2.2.1).map fun f => (f, kc.1))).map
    fun c => c.2

/-- `PackerGlobal._new_open_bin`: like the on-line version, except a
factory into which no pending item fits is deleted. -/
def globalNewOpenBinGo (kind : PackAlgoKind) (rot : Bool)
    (pending : List (Nat × CubSpec)) :
    List (Nat × BinFac) → List (Nat × BinFac) × Option BinState
  | [] => ([], none)
  | (k, f) :: rest =>
    if (pending.any fun kc =>
        factoryFitsInside f.width f.height f.depth rot
          kc.2.1 kc.2.2.1 kc.2.2.2.1) = false then
      globalNewOpenBinGo kind rot pending rest
    else if f.count = 0 then
      let r := globalNewOpenBinGo kind rot pending rest
      ((k, f) :: r.1, r.2)
    else
      let f2 : BinFac := { f with count := f.count - 1 }
      let keep := if f2.count = 0 then rest else (k, f2) :: rest
      (keep, some (binNew kind f.width f.height f.depth rot))

/-- Inner loop of `PackerGlobal.pack`: repeatedly place the pending
item with the lowest fitness against the open bin; when none fits,
close the bin.  The placement goes through `PackerBNFMixin.add_cub`,
whose failure path would call the overridden `_new_open_bin` with the
wrong arity — a `TypeError` that closes the bin and aborts `pack()`
(rendered by the `AddRet.nofit` branch). -/
def globalInner (sel : BinSel) : Nat → PackerState → List (Nat × CubSpec) →
    PackerState × List (Nat × CubSpec) × Bool
  | 0, ps, pending => (ps, pending, true)
  | fuel + 1, ps, pending =>
    match ps.opened with
    | [] => (ps, pending, true)
    | b :: rest =>
      match findBestFit b pending with
      | none =>
        ({ ps with opened := rest, closed := ps.closed ++ [b] },
         pending, false)
      | some k =>
        let it := ((pending.find? fun kc => kc.1 = k).map fun kc => kc.2).getD
          (0, 0, 0, none)
        let pending2 := pending.filter fun kc => kc.1 ≠ k
        let r := binAddCub b it.1 it.2.1 it.2.2.1 it.2.2.2
        match r.2 with
        | .placed _ =>
          globalInner sel fuel { ps with opened := r.1 :: rest } pending2
        | .err => ({ ps with opened := r.1 :: rest }, pending2, true)
        | .nofit =>
          ({ ps with opened := rest, closed := ps.closed ++ [r.1] },
           pending2, true)

/-- Outer loop of `PackerGlobal.pack`: while items remain, open a bin
into which some pending item fits and run the inner loop. -/
def globalOuter (sel : BinSel) : Nat → PackerState → List (Nat × CubSpec) →
    PackerState × List (Nat × CubSpec)
  | 0, ps, pending => (ps, pending)
  | fuel + 1, ps, pending =>
    if pending.isEmpty then (ps, pending)
    else
      let r := globalNewOpenBinGo ps.kind ps.rot pending ps.factories
      match r.2 with
      | none => ({ ps with factories := r.1 }, pending)
      | some nb =>
        let ps2 := { ps with factories := r.1, opened := ps.opened ++ [nb] }
        let q := globalInner sel (pending.length + 1) ps2 pending
        if q.2.2 then (q.1, q.2.1)
        else globalOuter sel fuel q.1 q.2.1

/-- `PackerGlobal.pack`: reset, forward templates, store the items in
an ordered key-to-item map (sorting is forced to `SORT_NONE` by the
constructor), and run the outer loop. -/
def packGlobal (o : OffState) : PackerState :=
  let ps := offReset o
  if o.availCub.isEmpty || o.availBins.isEmpty then ps
  else
    let ps2 := addFactories ps o.availBins
    let pending := o.availCub.enum
    (globalOuter .bnf (totalFacCount ps2 + 1) ps2 pending).1

/-- The four off-line packers (`PackerBNF`, `PackerBFF`, `PackerBBF`,
`PackerGlobal`). -/
inductive PackerKind where
  | bnf
  | bff
  | bbf
  | global
deriving DecidableEq, Repr

/-- `pack()` of the chosen off-line packer. -/
def packWith (k : PackerKind) (o : OffState) : PackerState :=
  match k with
  | .bnf => packOffline .bnf o
  | .bff => packOffline .bff o
  | .bbf => packOffline .bbf o
  | .global => packGlobal o

end Cubspack

namespace Cubspack

theorem foldl_firstMin_mem {α : Type} :
    ∀ (l : List (Int × α)) (b c : Int × α),
      l.foldl (fun acc c =>
        match acc with
        | none => some c
        | some b => if c.1 < b.1 then some c else some b) (some b) = some c →
      c = b ∨ c ∈ l := by
  intro l
  induction l with
  | nil => intro b c h; exact Or.inl (Option.some.inj h).symm
  | cons x xs ih =>
    intro b c h
    simp only [List.foldl_cons] at h
    by_cases hx : x.1 < b.1
    · rw [if_pos hx] at h
      rcases ih x c h with h1 | h1
      · exact Or.inr (h1 ▸ List.mem_cons_self x xs)
      · exact Or.inr (List.mem_cons_of_mem x h1)
    · rw [if_neg hx] at h
      rcases ih b c h with h1 | h1
      · exact Or.inl h1
      · exact Or.inr (List.mem_cons_of_mem x h1)

/-- The first-minimum of a candidate list is one of the candidates. -/
theorem firstMinBy_mem {α : Type} {l : List (Int × α)} {c : Int × α}
    (h : firstMinBy l = some c) : c ∈ l := by
  cases l with
  | nil => exact absurd h (by simp [firstMinBy])
  | cons x xs =>
    unfold firstMinBy at h
    simp only [List.foldl_cons] at h
    rcases foldl_firstMin_mem xs x c h with h1 | h1
    · exact h1 ▸ List.mem_cons_self x xs
    · exact List.mem_cons_of_mem x h1

/-- A non-`none` section fitness certifies that the item fits the
section. -/
theorem sectionFitness_fits {f : GFit} {s : Cuboid} {w h d : Int} {v : Int}
    (hf : sectionFitness f s w h d = some v) :
    w ≤ s.width ∧ h ≤ s.height ∧ d ≤ s.depth := by
  unfold sectionFitness at hf
  split_ifs at hf with hc
  · push_neg at hc
    exact hc

/-- Characterization of a successful `_select_fittest_section`: the
returned section is a member of the section list and its fitness for
the selected orientation is defined. -/
theorem selectFittestSection_some {cfg : GConf} {sections : List Cuboid}
    {w h d : Int} {sec : Cuboid} {rotated : Bool}
    (hs : selectFittestSection cfg sections w h d = some (sec, rotated)) :
    sec ∈ sections ∧
    ∃ v, sectionFitness cfg.fit sec (if rotated then h else w)
      (if rotated then w else h) d = some v := by
  unfold selectFittestSection at hs
  obtain ⟨c, hc, hc2⟩ := Option.map_eq_some'.mp hs
  have hmem := firstMinBy_mem hc
  rcases List.mem_append.mp hmem with hm | hm
  · obtain ⟨s, hsm, hmap⟩ := List.mem_filterMap.mp hm
    obtain ⟨v, hv, hveq⟩ := Option.map_eq_some'.mp hmap
    rw [← hveq] at hc2
    have hs1 : s = sec := congrArg Prod.fst hc2
    have hr1 : false = rotated := congrArg Prod.snd hc2
    subst hs1
    rw [← hr1]
    simp only [Bool.false_eq_true, if_false]
    exact ⟨hsm, v, hv⟩
  · cases hrot : cfg.rot with
    | false =>
      rw [hrot] at hm
      simp only [Bool.false_eq_true, if_false] at hm
      exact absurd hm (by simp)
    | true =>
      rw [hrot] at hm
      simp only [if_true] at hm
      obtain ⟨s, hsm, hmap⟩ := List.mem_filterMap.mp hm
      obtain ⟨v, hv, hveq⟩ := Option.map_eq_some'.mp hmap
      rw [← hveq] at hc2
      have hs1 : s = sec := congrArg Prod.fst hc2
      have hr1 : true = rotated := congrArg Prod.snd hc2
      subst hs1
      rw [← hr1]
      simp only [if_true]
      exact ⟨hsm, v, hv⟩

/-- A non-`none` `_cub_fitness` certifies the fit. -/
theorem cubFitness_fits {m : Cuboid} {w h d : Int} {v : Int}
    (hf : cubFitness m w h d = some v) :
    w ≤ m.width ∧ h ≤ m.height ∧ d ≤ m.depth := by
  unfold cubFitness at hf
  split_ifs at hf with hc
  exact hc

/-- Characterization of a successful `_select_position` for every
MaxCubs variant: the returned maximal cuboid is a member of the list,
and the placed cuboid sits at its origin with the item's dimensions in
one of the two orientations, which fit the maximal cuboid. -/
theorem selectPosition_some {v : MVariant} {rot : Bool}
    {maxCubs : List Cuboid} {w h d : Int} {cub m : Cuboid}
    (hs : selectPosition v rot maxCubs w h d = some (cub, m)) :
    m ∈ maxCubs ∧
    ∃ w2 h2, ((w2 = w ∧ h2 = h) ∨ (w2 = h ∧ h2 = w)) ∧
      cub = ⟨m.x, m.y, m.z, w2, h2, d, none⟩ ∧
      w2 ≤ m.width ∧ h2 ≤ m.height ∧ d ≤ m.depth := by
  unfold selectPosition at hs
  rcases v with _ | _ | _ | _ | _
  case bl =>
    simp only at hs
    obtain ⟨c, hc, hc2⟩ := Option.map_eq_some'.mp hs
    have hmem := firstMinBy_mem hc
    rcases List.mem_append.mp hmem with hm | hm
    · obtain ⟨s, hsm, hmap⟩ := List.mem_filterMap.mp hm
      rw [Option.ite_none_right_eq_some, Option.some.injEq] at hmap
      obtain ⟨hfit, hveq⟩ := hmap
      obtain ⟨v0, hv0⟩ := Option.isSome_iff_exists.mp hfit
      rw [← hveq] at hc2
      have he1 : (⟨s.x, s.y, s.z, w, h, d, none⟩ : Cuboid) = cub :=
        congrArg Prod.fst hc2
      have he2 : s = m := congrArg Prod.snd hc2
      subst he2
      obtain ⟨f1, f2, f3⟩ := cubFitness_fits hv0
      exact ⟨hsm, w, h, Or.inl ⟨rfl, rfl⟩, he1.symm, f1, f2, f3⟩
    · cases hrot : rot with
      | false =>
        rw [hrot] at hm
        simp only [Bool.false_eq_true, if_false] at hm
        exact absurd hm (by simp)
      | true =>
        rw [hrot] at hm
        simp only [if_true] at hm
        obtain ⟨s, hsm, hmap⟩ := List.mem_filterMap.mp hm
        rw [Option.ite_none_right_eq_some, Option.some.injEq] at hmap
        obtain ⟨hfit, hveq⟩ := hmap
        obtain ⟨v0, hv0⟩ := Option.isSome_iff_exists.mp hfit
        rw [← hveq] at hc2
        have he1 : (⟨s.x, s.y, s.z, h, w, d, none⟩ : Cuboid) = cub :=
          congrArg Prod.fst hc2
        have he2 : s = m := congrArg Prod.snd hc2
        subst he2
        obtain ⟨f1, f2, f3⟩ := cubFitness_fits hv0
        exact ⟨hsm, h, w, Or.inr ⟨rfl, rfl⟩, he1.symm, f1, f2, f3⟩
  all_goals
    simp only at hs
    obtain ⟨c, hc, hc2⟩ := Option.map_eq_some'.mp hs
    have hmem := firstMinBy_mem hc
    rcases List.mem_append.mp hmem with hm | hm
  case' _ =>
    skip
  all_goals first
    | (obtain ⟨s, hsm, hmap⟩ := List.mem_filterMap.mp hm
       obtain ⟨v0, hv0, hveq⟩ := Option.map_eq_some'.mp hmap
       rw [← hveq] at hc2
       have he1 : (⟨s.x, s.y, s.z, w, h, d, none⟩ : Cuboid) = cub :=
         congrArg Prod.fst hc2
       have he2 : s = m := congrArg Prod.snd hc2
       subst he2
       obtain ⟨f1, f2, f3⟩ := cubFitness_fits hv0
       exact ⟨hsm, w, h, Or.inl ⟨rfl, rfl⟩, he1.symm, f1, f2, f3⟩)
    | (cases hrot : rot with
       | false =>
         rw [hrot] at hm
         simp only [Bool.false_eq_true, if_false] at hm
         exact absurd hm (by simp)
       | true =>
         rw [hrot] at hm
         simp only [if_true] at hm
         obtain ⟨s, hsm, hmap⟩ := List.mem_filterMap.mp hm
         obtain ⟨v0, hv0, hveq⟩ := Option.map_eq_some'.mp hmap
         rw [← hveq] at hc2
         have he1 : (⟨s.x, s.y, s.z, h, w, d, none⟩ : Cuboid) = cub :=
           congrArg Prod.fst hc2
         have he2 : s = m := congrArg Prod.snd hc2
         subst he2
         obtain ⟨f1, f2, f3⟩ := cubFitness_fits hv0
         exact ⟨hsm, h, w, Or.inr ⟨rfl, rfl⟩, he1.symm, f1, f2, f3⟩)

end Cubspack

namespace Cubspack

/-- Scenario S5 state: a Best-Fit packer over `MaxCubsBssf` with two
open bins, `(10,10,10)` opened first and `(6,6,6)` second. -/
def bbfS5State : PackerState :=
  { kind := .maxcubs .bssf, rot := true, closed := [],
    opened := [binNew (.maxcubs .bssf) 10 10 10 true,
      binNew (.maxcubs .bssf) 6 6 6 true],
    factories := [], binCount := 2 }

/-- C3 evaluation at the failing input: `MaxCubsBssf.fitness(5,5,5)` on
a fresh `(10,10,10)` bin returns `0` — the base `_cub_fitness` — while
the class's `_rect_fitness` (which no code path calls) would return the
short-side leftover `5` (`1` on the `(6,6,6)` bin).  Consequently the
Best-Fit dispatch of S5 sees fitness `0` from both bins, ties to the
first open bin, and places the `(5,5,5)` item into the `(10,10,10)`
bin, not the `(6,6,6)` one. -/
theorem maxcubs_bssf_dead_fitness_eval :
    mFitness .bssf true (mInit 10 10 10) 5 5 5 = some 0 ∧
    rectFitnessBssf ⟨0, 0, 0, 10, 10, 10, none⟩ 5 5 5 = some 5 ∧
    rectFitnessBssf ⟨0, 0, 0, 6, 6, 6, none⟩ 5 5 5 = some 1 ∧
    (bbfAddCub bbfS5State 5 5 5 none).2 = .pyBool true ∧
    (bbfAddCub bbfS5State 5 5 5 none).1.opened.map
      (fun b => (binDims b, binCuboids b)) =
      [((10, 10, 10), [⟨0, 0, 0, 5, 5, 5, none⟩]),
       ((6, 6, 6), [])] := by
  refine ⟨by decide, by decide, by decide, by decide, by decide⟩

/-- A Guillotine `add_cub` whose selection fails returns the `None`
sentinel and leaves the whole state unchanged. -/
theorem gAddCub_nofit {cfg : GConf} {st : GState} {w h d : Int}
    {rid : Option Nat}
    (h0 : selectFittestSection cfg st.sections w h d = none) :
    gAddCub cfg st w h d rid = (st, .nofit) := by
  unfold gAddCub
  rw [h0]

/-- A MaxCubs `add_cub` whose selection fails returns the `None`
sentinel and leaves the whole state unchanged. -/
theorem mAddCub_nofit {v : MVariant} {rot : Bool} {st : MState}
    {w h d : Int} {rid : Option Nat}
    (h0 : selectPosition v rot st.maxCubs w h d = none) :
    mAddCub v rot st w h d rid = (st, .nofit) := by
  unfold mAddCub
  rw [h0]

/-- `Guillotine.fitness` is `none` exactly when the selection fails. -/
theorem gFitness_none_iff {cfg : GConf} {st : GState} {w h d : Int} :
    gFitness cfg st w h d = none ↔
    selectFittestSection cfg st.sections w h d = none := by
  unfold gFitness
  cases hsel : selectFittestSection cfg st.sections w h d with
  | none => simp
  | some p =>
    obtain ⟨sec, rotated⟩ := p
    obtain ⟨_, v, hv⟩ := selectFittestSection_some hsel
    cases hrot : rotated with
    | false =>
      rw [hrot] at hv
      simp only [Bool.false_eq_true, if_false] at hv ⊢
      simp [hv]
    | true =>
      rw [hrot] at hv
      simp only [if_true] at hv ⊢
      simp [hv]

/-- `MaxCubs.fitness` is `none` exactly when the selection fails. -/
theorem mFitness_none_iff {v : MVariant} {rot : Bool} {st : MState}
    {w h d : Int} :
    mFitness v rot st w h d = none ↔
    selectPosition v rot st.maxCubs w h d = none := by
  unfold mFitness
  cases hsel : selectPosition v rot st.maxCubs w h d with
  | none => simp
  | some p =>
    obtain ⟨cub, m⟩ := p
    obtain ⟨_, w2, h2, _, hcub, f1, f2, f3⟩ := selectPosition_some hsel
    subst hcub
    simp only [cubFitness]
    rw [if_pos ⟨f1, f2, f3⟩]
    simp

/-- A bin whose `fitness` is `none` rejects `add_cub` without any state
change. -/
theorem binAddCub_nofit_of_fitness_none {b : BinState} {w h d : Int}
    {rid : Option Nat} (hf : binFitness b w h d = none) :
    binAddCub b w h d rid = (b, .nofit) := by
  cases b with
  | g cfg st =>
    simp only [binFitness] at hf
    simp only [binAddCub, gAddCub_nofit (gFitness_none_iff.mp hf)]
  | mx v rot bw bh bd st =>
    simp only [binFitness] at hf
    simp only [binAddCub, mAddCub_nofit (mFitness_none_iff.mp hf)]

end Cubspack

namespace Cubspack

theorem newOpenBinGo_none {kind : PackAlgoKind} {rot : Bool} {w h d : Int} :
    ∀ facs : List (Nat × BinFac),
    (∀ kf ∈ facs, factoryFitsInside kf.2.width kf.2.height kf.2.depth rot
      w h d = false) →
    newOpenBinGo kind rot w h d facs = (facs, none) := by
  intro facs
  induction facs with
  | nil => intro _; rfl
  | cons kf rest ih =>
    intro hall
    obtain ⟨k, f⟩ := kf
    have hf := hall (k, f) (List.mem_cons_self _ _)
    simp only [newOpenBinGo]
    rw [if_pos hf, ih fun x hx => hall x (List.mem_cons_of_mem _ hx)]

theorem newOpenBin_none {st : PackerState} {w h d : Int}
    (hfacs : ∀ kf ∈ st.factories,
      factoryFitsInside kf.2.width kf.2.height kf.2.depth st.rot w h d =
        false) :
    newOpenBin st w h d = (st, none) := by
  unfold newOpenBin
  rw [newOpenBinGo_none st.factories hfacs]

/-- When every open bin rejects the item and no factory's reference bin
accepts it, `PackerBNFMixin.add_cub` closes every open bin in order and
returns the `None` sentinel. -/
theorem bnfAddCub_all_reject :
    ∀ (opened : List BinState) (st : PackerState) (fuel : Nat)
      (w h d : Int) (rid : Option Nat),
    st.opened = opened → opened.length < fuel →
    (∀ b ∈ opened, binFitness b w h d = none) →
    (∀ kf ∈ st.factories,
      factoryFitsInside kf.2.width kf.2.height kf.2.depth st.rot w h d =
        false) →
    bnfAddCub fuel st w h d rid =
      ({ st with opened := [], closed := st.closed ++ opened }, .pyNone) := by
  intro opened
  induction opened with
  | nil =>
    intro st fuel w h d rid hop hfuel _ hfacs
    cases fuel with
    | zero => omega
    | succ f =>
      simp only [bnfAddCub, hop]
      rw [newOpenBin_none hfacs]
      simp
      rw [← hop]
  | cons b rest ih =>
    intro st fuel w h d rid hop hfuel hbins hfacs
    cases fuel with
    | zero => simp at hfuel
    | succ f =>
      simp only [bnfAddCub, hop]
      rw [binAddCub_nofit_of_fitness_none
        (hbins b (List.mem_cons_self _ _))]
      have := ih { st with opened := rest, closed := st.closed ++ [b] }
        f w h d rid rfl (by simp at hfuel ⊢; omega)
        (fun x hx => hbins x (List.mem_cons_of_mem _ hx))
        (fun kf hkf => hfacs kf hkf)
      simp only at this
      rw [this]
      simp [List.append_assoc]

/-- When every open bin rejects the item, the `for` loop of
`PackerBFFMixin.add_cub` finds no bin. -/
theorem bffTryBins_all_reject :
    ∀ (bins : List BinState) (w h d : Int) (rid : Option Nat),
    (∀ b ∈ bins, binFitness b w h d = none) →
    bffTryBins bins w h d rid = none := by
  intro bins
  induction bins with
  | nil => intro w h d rid _; rfl
  | cons b rest ih =>
    intro w h d rid hall
    simp only [bffTryBins]
    rw [binAddCub_nofit_of_fitness_none (hall b (List.mem_cons_self _ _))]
    simp only
    rw [ih w h d rid fun x hx => hall x (List.mem_cons_of_mem _ hx)]
    rfl

/-- When every open bin rejects the item and no factory accepts it,
`PackerBFFMixin.add_cub` is a no-op returning the `None` sentinel. -/
theorem bffAddCub_all_reject {st : PackerState} {w h d : Int}
    {rid : Option Nat}
    (hbins : ∀ b ∈ st.opened, binFitness b w h d = none)
    (hfacs : ∀ kf ∈ st.factories,
      factoryFitsInside kf.2.width kf.2.height kf.2.depth st.rot w h d =
        false) :
    bffAddCub st w h d rid = (st, .pyNone) := by
  unfold bffAddCub
  rw [bffTryBins_all_reject st.opened w h d rid hbins]
  simp only [bffOpenLoop, totalFacCount]
  rw [newOpenBin_none hfacs]

theorem enumFrom_fitness_filterMap_nil {w h d : Int} :
    ∀ (l : List BinState) (n : Nat),
    (∀ b ∈ l, binFitness b w h d = none) →
    (l.enumFrom n).filterMap
      (fun ib => (binFitness ib.2 w h d).map fun f => (f, ib.1)) = [] := by
  intro l
  induction l with
  | nil => intro n _; rfl
  | cons b rest ih =>
    intro n hall
    simp only [List.enumFrom, List.filterMap]
    rw [hall b (List.mem_cons_self _ _)]
    simp only [Option.map_none']
    exact ih (n + 1) fun x hx => hall x (List.mem_cons_of_mem _ hx)

/-- When every open bin reports no fitness and no factory accepts the
item, `PackerBBFMixin.add_cub` is a no-op returning `False` (the BBF
mixin returns booleans, not the `None` sentinel). -/
theorem bbfAddCub_all_reject {st : PackerState} {w h d : Int}
    {rid : Option Nat}
    (hbins : ∀ b ∈ st.opened, binFitness b w h d = none)
    (hfacs : ∀ kf ∈ st.factories,
      factoryFitsInside kf.2.width kf.2.height kf.2.depth st.rot w h d =
        false) :
    bbfAddCub st w h d rid = (st, .pyBool false) := by
  unfold bbfAddCub
  rw [show st.opened.enum = st.opened.enumFrom 0 from rfl,
    enumFrom_fitness_filterMap_nil st.opened 0 hbins]
  simp only [firstMinBy, List.foldl_nil, totalFacCount]
  simp only [bbfOpenLoop]
  rw [newOpenBin_none hfacs]

end Cubspack

namespace Cubspack

/-- The bin as a cuboid at the origin. -/
def binCub (w h d : Int) : Cuboid := ⟨0, 0, 0, w, h, d, none⟩

/-- Well-formedness of a free region inside `bin`: positive dimensions,
back face flush with the bin's back face, contained in the bin, and no
`rid`. -/
def okSec (bin : Cuboid) (s : Cuboid) : Prop :=
  posDims s ∧ s.z + s.depth = bin.z + bin.depth ∧ sub s bin ∧ s.rid = none

theorem cubEq_refl (c : Cuboid) : Cuboid.cubEq c c = true := by
  simp [Cuboid.cubEq]

theorem cubEq_full_eq {a b : Cuboid} (h : Cuboid.cubEq a b = true)
    (hr : a.rid = b.rid) : a = b := by
  obtain ⟨e1, e2, e3, e4, e5, e6⟩ := (cubEq_iff a b).mp h
  cases a; cases b
  simp_all

/-- `eraseCub` of a present element splits the list at the first
structurally equal occurrence. -/
theorem eraseCub_decomp :
    ∀ (l : List Cuboid) (c : Cuboid), (∃ x ∈ l, Cuboid.cubEq x c = true) →
    ∃ A x B, l = A ++ x :: B ∧ Cuboid.cubEq x c = true ∧
      eraseCub l c = A ++ B := by
  intro l
  induction l with
  | nil => intro c hc; obtain ⟨x, hx, _⟩ := hc; exact absurd hx (by simp)
  | cons s rest ih =>
    intro c hc
    by_cases hs : Cuboid.cubEq s c = true
    · exact ⟨[], s, rest, rfl, hs, by simp [eraseCub, hs]⟩
    · obtain ⟨x, hx, hxeq⟩ := hc
      rcases List.mem_cons.mp hx with rfl | hx2
      · exact absurd hxeq hs
      · obtain ⟨A, x2, B, hsplit, hxeq2, herase⟩ := ih c ⟨x, hx2, hxeq⟩
        refine ⟨s :: A, x2, B, by rw [hsplit]; rfl, hxeq2, ?_⟩
        simp only [eraseCub, hs]
        rw [if_neg (by simp [hs]), herase]
        simp

/-- Disjointness transfers through a pointwise cover by two lists. -/
theorem disj_of_coverL {t c : Cuboid} {L1 L2 : List Cuboid}
    (hcov : ∀ p, inPts t p →
      (∃ o ∈ L1, inPts o p) ∨ ∃ s ∈ L2, inPts s p)
    (h1 : ∀ o ∈ L1, disj c o) (h2 : ∀ s ∈ L2, disj c s) : disj c t := by
  intro p hpc hpt
  rcases hcov p hpt with ⟨o, ho, hpo⟩ | ⟨s, hs, hps⟩
  · exact h1 o ho p hpc hpo
  · exact h2 s hs p hpc hps

/-- Disjointness transfers through a pointwise cover by a cuboid and a
list. -/
theorem disj_of_cover1 {t c o : Cuboid} {L : List Cuboid}
    (hcov : ∀ p, inPts t p → inPts o p ∨ ∃ s ∈ L, inPts s p)
    (h1 : disj c o) (h2 : ∀ s ∈ L, disj c s) : disj c t := by
  intro p hpc hpt
  rcases hcov p hpt with hpo | ⟨s, hs, hps⟩
  · exact h1 p hpc hpo
  · exact h2 s hs p hpc hps

end Cubspack

namespace Cubspack

theorem joinPass_props {bin : Cuboid} :
    ∀ (ss : List Cuboid) (sec : Cuboid),
    okSec bin sec → (∀ s ∈ ss, okSec bin s) → ss.Pairwise disj →
    (∀ s ∈ ss, disj sec s) →
    okSec bin (joinPass sec ss).1 ∧
    (joinPass sec ss).2.Sublist ss ∧
    (∀ k ∈ (joinPass sec ss).2, disj (joinPass sec ss).1 k) ∧
    (∀ p, inPts (joinPass sec ss).1 p →
      inPts sec p ∨ ∃ s ∈ ss, inPts s p) := by
  intro ss
  induction ss with
  | nil =>
    intro sec h1 _ _ _
    exact ⟨h1, List.Sublist.refl _, by simp [joinPass],
      fun p hp => Or.inl hp⟩
  | cons s rest ih =>
    intro sec hsec hall hpw hdisj
    have hins : okSec bin s := hall s (List.mem_cons_self _ _)
    have hpwt := List.pairwise_cons.mp hpw
    rcases hj : Cuboid.join sec s with _ | sec2
    · -- join failed: s is kept
      obtain ⟨ok2, sub2, dis2, cov2⟩ := ih sec hsec
        (fun x hx => hall x (List.mem_cons_of_mem _ hx)) hpwt.2
        (fun x hx => hdisj x (List.mem_cons_of_mem _ hx))
      simp only [joinPass, hj]
      refine ⟨ok2, sub2.cons₂ _, ?_, ?_⟩
      · intro k hk
        rcases List.mem_cons.mp hk with rfl | hk2
        · intro p hpr hpk
          rcases cov2 p hpr with hpsec | ⟨t, ht, hpt⟩
          · exact hdisj k (List.mem_cons_self _ _) p hpsec hpk
          · exact hpwt.1 t ht p hpk hpt
        · exact dis2 k hk2
      · intro p hp
        rcases cov2 p hp with hpsec | ⟨t, ht, hpt⟩
        · exact Or.inl hpsec
        · exact Or.inr ⟨t, List.mem_cons_of_mem _ ht, hpt⟩
    · -- join succeeded: s absorbed into sec2
      have hinEq : sec.z + sec.depth = s.z + s.depth := by
        rw [hsec.2.1, hins.2.1]
      obtain ⟨hcov, hback, hrid, hposf, hsubf⟩ := join_props hj hinEq
      have hsec2 : okSec bin sec2 :=
        ⟨hposf hsec.1 hins.1, by rw [hback, hsec.2.1],
         hsubf bin hsec.2.2.1 hins.2.2.1, by rw [hrid]; exact hsec.2.2.2⟩
      have hdisj2 : ∀ x ∈ rest, disj sec2 x := by
        intro x hx p hp2 hpx
        rcases hcov p hp2 with hpsec | hps
        · exact hdisj x (List.mem_cons_of_mem _ hx) p hpsec hpx
        · exact hpwt.1 x hx p hps hpx
      obtain ⟨ok2, sub2, dis2, cov2⟩ := ih sec2 hsec2
        (fun x hx => hall x (List.mem_cons_of_mem _ hx)) hpwt.2 hdisj2
      simp only [joinPass, hj]
      refine ⟨ok2, sub2.cons _, dis2, ?_⟩
      intro p hp
      rcases cov2 p hp with hpsec2 | ⟨t, ht, hpt⟩
      · rcases hcov p hpsec2 with hpsec | hps
        · exact Or.inl hpsec
        · exact Or.inr ⟨s, List.mem_cons_self _ _, hps⟩
      · exact Or.inr ⟨t, List.mem_cons_of_mem _ ht, hpt⟩

end Cubspack

namespace Cubspack

theorem mergeLoop_props {bin : Cuboid} :
    ∀ (fuel : Nat) (ss : List Cuboid) (sec : Cuboid),
    okSec bin sec → (∀ s ∈ ss, okSec bin s) → ss.Pairwise disj →
    (∀ s ∈ ss, disj sec s) →
    okSec bin (mergeLoop fuel sec ss).1 ∧
    (mergeLoop fuel sec ss).2.Sublist ss ∧
    (∀ k ∈ (mergeLoop fuel sec ss).2, disj (mergeLoop fuel sec ss).1 k) ∧
    (∀ p, inPts (mergeLoop fuel sec ss).1 p →
      inPts sec p ∨ ∃ s ∈ ss, inPts s p) := by
  intro fuel
  induction fuel with
  | zero =>
    intro ss sec hsec _ _ hdisj
    exact ⟨hsec, List.Sublist.refl _, fun k hk => hdisj k hk,
      fun p hp => Or.inl hp⟩
  | succ f ih =>
    intro ss sec hsec hall hpw hdisj
    simp only [mergeLoop]
    by_cases hemp : ss.isEmpty
    · rw [if_pos hemp]
      exact ⟨hsec, List.Sublist.refl _, fun k hk => hdisj k hk,
        fun p hp => Or.inl hp⟩
    · rw [if_neg hemp]
      obtain ⟨ok1, sub1, dis1, cov1⟩ :=
        joinPass_props ss sec hsec hall hpw hdisj
      by_cases hlen : (joinPass sec ss).2.length = ss.length
      · rw [if_pos hlen]
        exact ⟨ok1, sub1, dis1, cov1⟩
      · rw [if_neg hlen]
        obtain ⟨ok2, sub2, dis2, cov2⟩ := ih (joinPass sec ss).2
          (joinPass sec ss).1 ok1 (fun s hs => hall s (sub1.mem hs))
          (hpw.sublist sub1) dis1
        refine ⟨ok2, sub2.trans sub1, dis2, ?_⟩
        intro p hp
        rcases cov2 p hp with hp1 | ⟨t, ht, hpt⟩
        · rcases cov1 p hp1 with hp0 | ⟨t, ht, hpt⟩
          · exact Or.inl hp0
          · exact Or.inr ⟨t, ht, hpt⟩
        · exact Or.inr ⟨t, sub1.mem ht, hpt⟩

theorem addSection_props {bin : Cuboid} (merge : Bool) {S : List Cuboid}
    {sec : Cuboid} (hsec : okSec bin sec) (hS : ∀ s ∈ S, okSec bin s)
    (hpw : S.Pairwise disj) (hdisj : ∀ s ∈ S, disj sec s) :
    (∀ t ∈ addSection merge S sec, okSec bin t) ∧
    (addSection merge S sec).Pairwise disj ∧
    (∀ t ∈ addSection merge S sec, ∀ p, inPts t p →
      inPts sec p ∨ ∃ s ∈ S, inPts s p) := by
  unfold addSection
  by_cases hm : merge
  · rw [if_pos hm]
    obtain ⟨ok1, sub1, dis1, cov1⟩ :=
      mergeLoop_props (S.length + 1) S sec hsec hS hpw hdisj
    refine ⟨?_, ?_, ?_⟩
    · intro t ht
      rcases List.mem_append.mp ht with ht1 | ht2
      · exact hS t (sub1.mem ht1)
      · rw [List.mem_singleton.mp ht2]
        exact ok1
    · rw [List.pairwise_append]
      refine ⟨hpw.sublist sub1, List.pairwise_singleton _ _, ?_⟩
      intro a ha b hb
      rw [List.mem_singleton.mp hb]
      exact disj_symm (dis1 a ha)
    · intro t ht p hp
      rcases List.mem_append.mp ht with ht1 | ht2
      · exact Or.inr ⟨t, sub1.mem ht1, hp⟩
      · rw [List.mem_singleton.mp ht2] at hp
        exact cov1 p hp
  · rw [if_neg hm]
    refine ⟨?_, ?_, ?_⟩
    · intro t ht
      rcases List.mem_append.mp ht with ht1 | ht2
      · exact hS t ht1
      · rw [List.mem_singleton.mp ht2]
        exact hsec
    · rw [List.pairwise_append]
      refine ⟨hpw, List.pairwise_singleton _ _, ?_⟩
      intro a ha b hb
      rw [List.mem_singleton.mp hb]
      exact disj_symm (hdisj a ha)
    · intro t ht p hp
      rcases List.mem_append.mp ht with ht1 | ht2
      · exact Or.inr ⟨t, ht1, hp⟩
      · rw [List.mem_singleton.mp ht2] at hp
        exact Or.inl hp

theorem foldAddSections_props {bin : Cuboid} {merge : Bool} :
    ∀ (os : List Cuboid) (S : List Cuboid),
    (∀ o ∈ os, okSec bin o) → os.Pairwise disj →
    (∀ o ∈ os, ∀ s ∈ S, disj o s) →
    (∀ s ∈ S, okSec bin s) → S.Pairwise disj →
    (∀ t ∈ os.foldl (addSection merge) S, okSec bin t) ∧
    (os.foldl (addSection merge) S).Pairwise disj ∧
    (∀ t ∈ os.foldl (addSection merge) S, ∀ p, inPts t p →
      (∃ o ∈ os, inPts o p) ∨ ∃ s ∈ S, inPts s p) := by
  intro os
  induction os with
  | nil =>
    intro S _ _ _ hS hpw
    exact ⟨hS, hpw, fun t ht p hp => Or.inr ⟨t, ht, hp⟩⟩
  | cons o os' ih =>
    intro S hok hospw hdisj hS hpw
    have hopw := List.pairwise_cons.mp hospw
    have hoS : ∀ s ∈ S, disj o s := hdisj o (List.mem_cons_self _ _)
    obtain ⟨ok1, pw1, cov1⟩ := addSection_props merge
      (hok o (List.mem_cons_self _ _)) hS hpw hoS
    simp only [List.foldl_cons]
    obtain ⟨ok2, pw2, cov2⟩ := ih (addSection merge S o)
      (fun x hx => hok x (List.mem_cons_of_mem _ hx)) hopw.2
      (by
        intro o' ho' t ht
        exact disj_of_cover1 (cov1 t ht) (disj_symm (hopw.1 o' ho'))
          (fun s hs => hdisj o' (List.mem_cons_of_mem _ ho') s hs))
      ok1 pw1
    refine ⟨ok2, pw2, ?_⟩
    intro t ht p hp
    rcases cov2 t ht p hp with ⟨o2, ho2, hpo2⟩ | ⟨s, hs, hps⟩
    · exact Or.inl ⟨o2, List.mem_cons_of_mem _ ho2, hpo2⟩
    · rcases cov1 s hs p hps with hpo | ⟨s2, hs2, hps2⟩
      · exact Or.inl ⟨o, List.mem_cons_self _ _, hpo⟩
      · exact Or.inr ⟨s2, hs2, hps2⟩

end Cubspack

namespace Cubspack

theorem mem_hOffcuts {sec : Cuboid} {w h d : Int} {o : Cuboid}
    (ho : o ∈ hOffcuts sec w h d) :
    (h < sec.height ∧ o = ⟨sec.x, sec.y + h, sec.z, sec.width,
      sec.height - h, sec.depth, none⟩) ∨
    (w < sec.width ∧ o = ⟨sec.x + w, sec.y, sec.z, sec.width - w, h,
      sec.depth, none⟩) ∨
    (d < sec.depth ∧ o = ⟨sec.x, sec.y, sec.z + d, w, h,
      sec.depth - d, none⟩) := by
  unfold hOffcuts at ho
  split_ifs at ho with g1 g2 g3 <;> simp_all <;> tauto

theorem mem_vOffcuts {sec : Cuboid} {w h d : Int} {o : Cuboid}
    (ho : o ∈ vOffcuts sec w h d) :
    (h < sec.height ∧ o = ⟨sec.x, sec.y + h, sec.z, w,
      sec.height - h, sec.depth, none⟩) ∨
    (w < sec.width ∧ o = ⟨sec.x + w, sec.y, sec.z, sec.width - w,
      sec.height, sec.depth, none⟩) ∨
    (d < sec.depth ∧ o = ⟨sec.x, sec.y, sec.z + d, w, h,
      sec.depth - d, none⟩) := by
  unfold vOffcuts at ho
  split_ifs at ho with g1 g2 g3 <;> simp_all <;> tauto

end Cubspack

namespace Cubspack

/-- The offcuts of either split rule are well-formed free regions of
the parent section, pairwise interior-disjoint, contained in the
parent, and interior-disjoint from the placed cuboid at the parent's
origin. -/
theorem gOffcuts_props {bin sec : Cuboid} {w h d : Int} (rid : Option Nat)
    (hsec : okSec bin sec) (hw : 0 < w) (hw2 : w ≤ sec.width)
    (hh : 0 < h) (hh2 : h ≤ sec.height) (hd : 0 < d) (hd2 : d ≤ sec.depth)
    {os : List Cuboid}
    (hos : os = hOffcuts sec w h d ∨ os = vOffcuts sec w h d) :
    (∀ o ∈ os, okSec bin o ∧ sub o sec ∧
      disj o ⟨sec.x, sec.y, sec.z, w, h, d, rid⟩) ∧
    os.Pairwise disj := by
  obtain ⟨⟨q1, q2, q3⟩, hback, ⟨s1, s2, s3, s4, s5, s6⟩, hr⟩ := hsec
  constructor
  · intro o ho
    have hcase :
        (o = ⟨sec.x, sec.y + h, sec.z, sec.width, sec.height - h,
          sec.depth, none⟩ ∧ h < sec.height) ∨
        (o = ⟨sec.x, sec.y + h, sec.z, w, sec.height - h,
          sec.depth, none⟩ ∧ h < sec.height) ∨
        (o = ⟨sec.x + w, sec.y, sec.z, sec.width - w, h,
          sec.depth, none⟩ ∧ w < sec.width) ∨
        (o = ⟨sec.x + w, sec.y, sec.z, sec.width - w, sec.height,
          sec.depth, none⟩ ∧ w < sec.width) ∨
        (o = ⟨sec.x, sec.y, sec.z + d, w, h, sec.depth - d, none⟩ ∧
          d < sec.depth) := by
      rcases hos with rfl | rfl
      · rcases mem_hOffcuts ho with ⟨g, rfl⟩ | ⟨g, rfl⟩ | ⟨g, rfl⟩
        · exact Or.inl ⟨rfl, g⟩
        · exact Or.inr (Or.inr (Or.inl ⟨rfl, g⟩))
        · exact Or.inr (Or.inr (Or.inr (Or.inr ⟨rfl, g⟩)))
      · rcases mem_vOffcuts ho with ⟨g, rfl⟩ | ⟨g, rfl⟩ | ⟨g, rfl⟩
        · exact Or.inr (Or.inl ⟨rfl, g⟩)
        · exact Or.inr (Or.inr (Or.inr (Or.inl ⟨rfl, g⟩)))
        · exact Or.inr (Or.inr (Or.inr (Or.inr ⟨rfl, g⟩)))
    rcases hcase with ⟨rfl, g⟩ | ⟨rfl, g⟩ | ⟨rfl, g⟩ | ⟨rfl, g⟩ | ⟨rfl, g⟩ <;>
      refine ⟨⟨⟨?_, ?_, ?_⟩, ?_, ?_, rfl⟩, ?_, ?_⟩ <;>
      first
      | (intro p hp hq
         simp only [inPts] at hp hq
         omega)
      | (simp only [sub]
         omega)
  · have hda : ∀ (o1 o2 : Cuboid),
        o1.x + o1.width ≤ o2.x ∨ o2.x + o2.width ≤ o1.x ∨
        o1.y + o1.height ≤ o2.y ∨ o2.y + o2.height ≤ o1.y ∨
        o1.z + o1.depth ≤ o2.z ∨ o2.z + o2.depth ≤ o1.z → disj o1 o2 := by
      intro o1 o2 hsep p hp hq
      simp only [inPts] at hp hq
      omega
    have hmem1 : ∀ {c : Prop} [Decidable c] {e x : Cuboid},
        x ∈ (if c then [e] else []) → x = e := by
      intro c _ e x hx
      split_ifs at hx <;> simp_all
    have hpwite : ∀ {c : Prop} [Decidable c] {e : Cuboid},
        (if c then [e] else []).Pairwise disj := by
      intro c _ e
      split_ifs
      · exact List.pairwise_singleton _ _
      · exact List.Pairwise.nil
    rcases hos with rfl | rfl
    · simp only [hOffcuts]
      refine List.pairwise_append.mpr
        ⟨List.pairwise_append.mpr ⟨hpwite, hpwite, ?_⟩, hpwite, ?_⟩
      · intro a ha b hb
        rw [hmem1 ha, hmem1 hb]
        apply hda
        simp
        try omega
      · intro a ha b hb
        rw [hmem1 hb]
        rcases List.mem_append.mp ha with ha2 | ha2 <;>
          rw [hmem1 ha2] <;> apply hda <;> simp <;> omega
    · simp only [vOffcuts]
      refine List.pairwise_append.mpr
        ⟨List.pairwise_append.mpr ⟨hpwite, hpwite, ?_⟩, hpwite, ?_⟩
      · intro a ha b hb
        rw [hmem1 ha, hmem1 hb]
        apply hda
        simp
        try omega
      · intro a ha b hb
        rw [hmem1 hb]
        rcases List.mem_append.mp ha with ha2 | ha2 <;>
          rw [hmem1 ha2] <;> apply hda <;> simp <;> omega

end Cubspack

namespace Cubspack

/-- The add_cub invariant of a Guillotine bin: free sections are
well-formed, pairwise interior-disjoint and interior-disjoint from every
placed cuboid; placed cuboids have positive dimensions, lie inside the
bin and are pairwise interior-disjoint. -/
structure GInv (cfg : GConf) (st : GState) : Prop where
  secOk : ∀ s ∈ st.sections, okSec (binCub cfg.width cfg.height cfg.depth) s
  secPw : st.sections.Pairwise disj
  secCub : ∀ s ∈ st.sections, ∀ c ∈ st.cuboids, disj s c
  cubPos : ∀ c ∈ st.cuboids, posDims c
  cubSub : ∀ c ∈ st.cuboids, sub c (binCub cfg.width cfg.height cfg.depth)
  cubPw : st.cuboids.Pairwise disj

theorem sections_erase_facts {cfg : GConf} {st : GState} {sec : Cuboid}
    (hinv : GInv cfg st) (hmem : sec ∈ st.sections) :
    (∀ r ∈ eraseCub st.sections sec, r ∈ st.sections) ∧
    (eraseCub st.sections sec).Pairwise disj ∧
    (∀ r ∈ eraseCub st.sections sec, disj sec r) := by
  obtain ⟨A, x, B, hsplit, hxeq, herase⟩ :=
    eraseCub_decomp st.sections sec ⟨sec, hmem, cubEq_refl sec⟩
  have hxl : x ∈ st.sections := by rw [hsplit]; simp
  have hxsec : x = sec := cubEq_full_eq hxeq
    (by rw [(hinv.secOk x hxl).2.2.2, (hinv.secOk sec hmem).2.2.2])
  subst hxsec
  have hpw := hinv.secPw
  rw [hsplit] at hpw
  obtain ⟨pwA, pwXB, crossA⟩ := List.pairwise_append.mp hpw
  obtain ⟨hxB, pwB⟩ := List.pairwise_cons.mp pwXB
  rw [herase]
  refine ⟨?_, ?_, ?_⟩
  · intro r hr
    rw [hsplit]
    rcases List.mem_append.mp hr with hr1 | hr1
    · exact List.mem_append.mpr (Or.inl hr1)
    · exact List.mem_append.mpr (Or.inr (List.mem_cons_of_mem _ hr1))
  · exact List.pairwise_append.mpr
      ⟨pwA, pwB, fun a ha b hb => crossA a ha b (List.mem_cons_of_mem _ hb)⟩
  · intro r hr
    rcases List.mem_append.mp hr with hr1 | hr1
    · exact disj_symm (crossA r hr1 x (List.mem_cons_self _ _))
    · exact hxB r hr1

/-- Invariant preservation of `Guillotine.add_cub` for any fitness
criterion, split rule, merge mode and rotation flag. -/
theorem gInv_addCub {cfg : GConf} {st : GState} {w h d : Int}
    {rid : Option Nat} (hw : 0 < w) (hh : 0 < h) (hd : 0 < d)
    (hinv : GInv cfg st) : GInv cfg (gAddCub cfg st w h d rid).1 := by
  unfold gAddCub
  cases hsel : selectFittestSection cfg st.sections w h d with
  | none => exact hinv
  | some sr =>
    obtain ⟨sec, rotated⟩ := sr
    obtain ⟨hmem, v, hfit⟩ := selectFittestSection_some hsel
    obtain ⟨f1, f2, f3⟩ := sectionFitness_fits hfit
    have hsecok := hinv.secOk sec hmem
    obtain ⟨hsub1, hpw1, hdisj1⟩ := sections_erase_facts hinv hmem
    -- facts independent of the orientation
    have hcore : ∀ w2 h2 : Int, 0 < w2 → 0 < h2 → w2 ≤ sec.width →
        h2 ≤ sec.height →
        GInv cfg
          (match gSplitOffcuts cfg.split sec w2 h2 d with
          | none => { st with sections := eraseCub st.sections sec }
          | some offs =>
            { sections :=
                offs.foldl (addSection cfg.merge) (eraseCub st.sections sec),
              cuboids :=
                st.cuboids ++ [⟨sec.x, sec.y, sec.z, w2, h2, d, rid⟩] }) := by
      intro w2 h2 hw2 hh2 hfw2 hfh2
      have hcubsub : sub (⟨sec.x, sec.y, sec.z, w2, h2, d, rid⟩ : Cuboid)
          sec := by
        simp only [sub]
        omega
      cases hsplit : gSplitOffcuts cfg.split sec w2 h2 d with
      | none =>
        exact ⟨fun s hs => hinv.secOk s (hsub1 s hs), hpw1,
          fun s hs c hc => hinv.secCub s (hsub1 s hs) c hc,
          hinv.cubPos, hinv.cubSub, hinv.cubPw⟩
      | some offs =>
        have hoffs : offs = hOffcuts sec w2 h2 d ∨
            offs = vOffcuts sec w2 h2 d := by
          unfold gSplitOffcuts at hsplit
          cases hq : cfg.split <;> rw [hq] at hsplit <;>
            simp only at hsplit
          case maxas => exact absurd hsplit (by simp)
          all_goals
            split_ifs at hsplit <;>
              first
              | exact Or.inl (Option.some.inj hsplit).symm
              | exact Or.inr (Option.some.inj hsplit).symm
        obtain ⟨hoprops, hopw⟩ := gOffcuts_props rid hsecok hw2
          hfw2 hh2 hfh2 hd f3 hoffs
        have hodisj : ∀ o ∈ offs, ∀ r ∈ eraseCub st.sections sec,
            disj o r := by
          intro o ho r hr
          exact disj_of_sub_left (hoprops o ho).2.1 (hdisj1 r hr)
        obtain ⟨okF, pwF, covF⟩ := foldAddSections_props offs
          (eraseCub st.sections sec) (fun o ho => (hoprops o ho).1) hopw
          hodisj (fun s hs => hinv.secOk s (hsub1 s hs)) hpw1
        refine ⟨okF, pwF, ?_, ?_, ?_, ?_⟩
        · -- new sections vs all placed cuboids
          intro s hs c hc
          rcases List.mem_append.mp hc with hc1 | hc2
          · exact disj_symm (disj_of_coverL (covF s hs)
              (fun o ho => disj_symm (disj_of_sub_left (hoprops o ho).2.1
                (hinv.secCub sec hmem c hc1)))
              (fun r hr => disj_symm (hinv.secCub r (hsub1 r hr) c hc1)))
          · rw [List.mem_singleton.mp hc2]
            exact disj_symm (disj_of_coverL (covF s hs)
              (fun o ho => disj_symm (hoprops o ho).2.2)
              (fun r hr => disj_of_sub_left hcubsub (hdisj1 r hr)))
        · intro c hc
          rcases List.mem_append.mp hc with hc1 | hc2
          · exact hinv.cubPos c hc1
          · rw [List.mem_singleton.mp hc2]
            exact ⟨hw2, hh2, hd⟩
        · intro c hc
          rcases List.mem_append.mp hc with hc1 | hc2
          · exact hinv.cubSub c hc1
          · rw [List.mem_singleton.mp hc2]
            exact sub_trans hcubsub hsecok.2.2.1
        · rw [List.pairwise_append]
          refine ⟨hinv.cubPw, List.pairwise_singleton _ _, ?_⟩
          intro a ha b hb
          rw [List.mem_singleton.mp hb]
          exact disj_symm (disj_of_sub_left hcubsub
            (hinv.secCub sec hmem a ha))
    cases hrot : rotated with
    | false =>
      rw [hrot] at hfit
      simp only [Bool.false_eq_true, if_false]
      obtain ⟨g1, g2, g3⟩ := sectionFitness_fits (by simpa using hfit)
      have := hcore w h hw hh g1 g2
      cases hsplit : gSplitOffcuts cfg.split sec w h d with
      | none =>
        rw [hsplit] at this
        exact this
      | some offs =>
        rw [hsplit] at this
        exact this
    | true =>
      rw [hrot] at hfit
      simp only [if_true]
      obtain ⟨g1, g2, g3⟩ := sectionFitness_fits (by simpa using hfit)
      have := hcore h w hh hw g1 g2
      cases hsplit : gSplitOffcuts cfg.split sec h w d with
      | none =>
        rw [hsplit] at this
        exact this
      | some offs =>
        rw [hsplit] at this
        exact this

end Cubspack

namespace Cubspack

theorem gInit_eq (cfg : GConf) :
    gInit cfg = ⟨[⟨0, 0, 0, cfg.width, cfg.height, cfg.depth, none⟩], []⟩ := by
  unfold gInit addSection
  cases hm : cfg.merge
  · simp
  · simp [mergeLoop]

theorem gInv_init {cfg : GConf}
    (hpos : 0 < cfg.width ∧ 0 < cfg.height ∧ 0 < cfg.depth) :
    GInv cfg (gInit cfg) := by
  rw [gInit_eq]
  constructor
  · intro s hs
    simp only [List.mem_singleton] at hs
    subst hs
    exact ⟨⟨hpos.1, hpos.2.1, hpos.2.2⟩, rfl,
      by simp only [sub, binCub]; omega, rfl⟩
  · exact List.pairwise_singleton _ _
  · intro s _ c hc
    exact absurd hc (List.not_mem_nil c)
  · intro c hc
    exact absurd hc (List.not_mem_nil c)
  · intro c hc
    exact absurd hc (List.not_mem_nil c)
  · exact List.Pairwise.nil

theorem gAddCub_degenerate {cfg : GConf} {w h d : Int} {rid : Option Nat}
    (hnp : ¬(0 < cfg.width ∧ 0 < cfg.height ∧ 0 < cfg.depth))
    (hw : 0 < w) (hh : 0 < h) (hd : 0 < d) :
    gAddCub cfg (gInit cfg) w h d rid = (gInit cfg, .nofit) := by
  have hsel : selectFittestSection cfg (gInit cfg).sections w h d = none := by
    cases hq : selectFittestSection cfg (gInit cfg).sections w h d with
    | none => rfl
    | some sr =>
      obtain ⟨sec, rotated⟩ := sr
      obtain ⟨hmem, v, hfit⟩ := selectFittestSection_some hq
      obtain ⟨f1, f2, f3⟩ := sectionFitness_fits hfit
      rw [gInit_eq] at hmem
      simp only [List.mem_singleton] at hmem
      subst hmem
      exfalso
      apply hnp
      cases rotated <;> simp_all <;> omega
  exact gAddCub_nofit hsel

theorem gFold_inv {cfg : GConf} :
    ∀ (items : List (Int × Int × Int × Option Nat)) (st : GState),
    GInv cfg st → (∀ it ∈ items, 0 < it.1 ∧ 0 < it.2.1 ∧ 0 < it.2.2.1) →
    GInv cfg (items.foldl
      (fun st it => (gAddCub cfg st it.1 it.2.1 it.2.2.1 it.2.2.2).1) st) := by
  intro items
  induction items with
  | nil => intro st h _; exact h
  | cons it rest ih =>
    intro st h hpos
    have hit := hpos it (List.mem_cons_self _ _)
    exact ih _ (gInv_addCub hit.1 hit.2.1 hit.2.2 h)
      (fun x hx => hpos x (List.mem_cons_of_mem _ hx))

theorem gFold_degenerate {cfg : GConf}
    (hnp : ¬(0 < cfg.width ∧ 0 < cfg.height ∧ 0 < cfg.depth)) :
    ∀ (items : List (Int × Int × Int × Option Nat)),
    (∀ it ∈ items, 0 < it.1 ∧ 0 < it.2.1 ∧ 0 < it.2.2.1) →
    items.foldl
      (fun st it => (gAddCub cfg st it.1 it.2.1 it.2.2.1 it.2.2.2).1)
      (gInit cfg) = gInit cfg := by
  intro items
  induction items with
  | nil => intro _; rfl
  | cons it rest ih =>
    intro hpos
    have hit := hpos it (List.mem_cons_self _ _)
    simp only [List.foldl_cons,
      gAddCub_degenerate hnp hit.1 hit.2.1 hit.2.2]
    exact ih (fun x hx => hpos x (List.mem_cons_of_mem _ hx))

end Cubspack

namespace Cubspack

set_option maxHeartbeats 1000000 in
theorem mem_generateSplits {m c o : Cuboid}
    (ho : o ∈ generateSplits m c) :
    (c.x > m.x ∧ o = ⟨m.x, m.y, m.z, c.x - m.x, m.height, m.depth, none⟩) ∨
    (c.x + c.width < m.x + m.width ∧ o = ⟨c.x + c.width, m.y, m.z,
      m.x + m.width - (c.x + c.width), m.height, m.depth, none⟩) ∨
    (c.y + c.height < m.y + m.height ∧ o = ⟨m.x, c.y + c.height, m.z,
      m.width, m.y + m.height - (c.y + c.height), m.depth, none⟩) ∨
    (c.y > m.y ∧ o = ⟨m.x, m.y, m.z, m.width, c.y - m.y, m.depth, none⟩) ∨
    (c.z + c.depth < m.z + m.depth ∧ o = ⟨c.x, c.y, c.z + c.depth,
      c.width, c.height, m.z + m.depth - (c.z + c.depth), none⟩) := by
  unfold generateSplits at ho
  simp only [Cuboid.left, Cuboid.right, Cuboid.top, Cuboid.bottom,
    Cuboid.ineye, Cuboid.outeye] at ho
  split_ifs at ho with g1 g2 g3 g4 g5 <;>
    simp only [List.mem_append, List.mem_singleton, List.not_mem_nil,
      or_false, false_or, List.append_nil, List.nil_append,
      List.mem_cons] at ho <;>
    tauto

/-- Properties of the up-to-five successor slabs: each is a well-formed
free region, interior-disjoint from the placed cuboid, and contained
either in the split maximal cuboid or in the selected one. -/
theorem generateSplits_props {bin m mstar cub : Cuboid}
    (hm : okSec bin m) (hms : okSec bin mstar) (hcub : sub cub mstar)
    (hcpos : posDims cub)
    (hint : Cuboid.intersects m cub false = true) :
    ∀ t ∈ generateSplits m cub,
      okSec bin t ∧ disj t cub ∧ (sub t m ∨ sub t mstar) := by
  obtain ⟨⟨q1, q2, q3⟩, hback, ⟨s1, s2, s3, s4, s5, s6⟩, _⟩ := hm
  obtain ⟨⟨r1, r2, r3⟩, hbacks, ⟨u1, u2, u3, u4, u5, u6⟩, _⟩ := hms
  obtain ⟨c1, c2, c3, c4, c5, c6⟩ := hcub
  obtain ⟨p1, p2, p3⟩ := hcpos
  obtain ⟨t1, t2, t3, t4, t5, t6⟩ := stricts_of_intersects_true hint
  intro t ht
  rcases mem_generateSplits ht with ⟨g, rfl⟩ | ⟨g, rfl⟩ | ⟨g, rfl⟩ |
    ⟨g, rfl⟩ | ⟨g, rfl⟩ <;>
    refine ⟨⟨⟨?_, ?_, ?_⟩, ?_, ?_, rfl⟩, ?_, ?_⟩ <;>
    first
    | (intro p hp hq; simp only [inPts] at hp hq; omega)
    | (left; simp only [sub]; omega)
    | (right; simp only [sub]; omega)
    | (simp only [sub]; omega)
    | omega

end Cubspack

namespace Cubspack

theorem sub_refl (c : Cuboid) : sub c c := by
  simp only [sub]
  omega

/-- The add_cub invariant of a MaxCubs bin: maximal cuboids are
well-formed and interior-disjoint from every placed cuboid; placed
cuboids have positive dimensions, lie inside the bin and are pairwise
interior-disjoint. -/
structure MInv (w h d : Int) (st : MState) : Prop where
  mcOk : ∀ m ∈ st.maxCubs, okSec (binCub w h d) m
  mcCub : ∀ m ∈ st.maxCubs, ∀ c ∈ st.cuboids, disj m c
  cubPos : ∀ c ∈ st.cuboids, posDims c
  cubSub : ∀ c ∈ st.cuboids, sub c (binCub w h d)
  cubPw : st.cuboids.Pairwise disj

theorem mSplit_props {W H D : Int} {st : MState} {cub mstar : Cuboid}
    (hinv : MInv W H D st) (hms : mstar ∈ st.maxCubs)
    (hcsub : sub cub mstar) (hcpos : posDims cub) :
    ∀ t ∈ mSplit st.maxCubs cub,
      okSec (binCub W H D) t ∧ disj t cub ∧
      ∃ m0 ∈ st.maxCubs, sub t m0 := by
  intro t ht
  unfold mSplit at ht
  obtain ⟨m, hm, ht2⟩ := List.mem_flatMap.mp ht
  by_cases hi : Cuboid.intersects m cub false = true
  · rw [if_pos hi] at ht2
    obtain ⟨hok, hdisj, hsub⟩ := generateSplits_props (hinv.mcOk m hm)
      (hinv.mcOk mstar hms) hcsub hcpos hi t ht2
    refine ⟨hok, hdisj, ?_⟩
    rcases hsub with hsub | hsub
    · exact ⟨m, hm, hsub⟩
    · exact ⟨mstar, hms, hsub⟩
  · rw [if_neg hi] at ht2
    rw [List.mem_singleton.mp ht2]
    have hif : Cuboid.intersects m cub false = false := by
      cases hx : Cuboid.intersects m cub false
      · rfl
      · exact absurd hx hi
    exact ⟨hinv.mcOk m hm, disj_of_intersects_false hif, m, hm, sub_refl m⟩

/-- Invariant preservation of `MaxCubs.add_cub` for every variant and
rotation flag. -/
theorem mInv_addCub {v : MVariant} {rot : Bool} {W H D : Int}
    {st : MState} {w h d : Int} {rid : Option Nat}
    (hw : 0 < w) (hh : 0 < h) (hd : 0 < d) (hinv : MInv W H D st) :
    MInv W H D (mAddCub v rot st w h d rid).1 := by
  unfold mAddCub
  cases hsel : selectPosition v rot st.maxCubs w h d with
  | none => exact hinv
  | some cm =>
    obtain ⟨cub, mstar⟩ := cm
    obtain ⟨hmem, w2, h2, hor, hcubeq, f1, f2, f3⟩ := selectPosition_some hsel
    have hw2 : 0 < w2 := by rcases hor with ⟨rfl, _⟩ | ⟨rfl, _⟩ <;> omega
    have hh2 : 0 < h2 := by rcases hor with ⟨_, rfl⟩ | ⟨_, rfl⟩ <;> omega
    subst hcubeq
    have hcpos : posDims (⟨mstar.x, mstar.y, mstar.z, w2, h2, d, none⟩ :
        Cuboid) := ⟨hw2, hh2, hd⟩
    have hcsub : sub (⟨mstar.x, mstar.y, mstar.z, w2, h2, d, none⟩ : Cuboid)
        mstar := by
      simp only [sub]
      omega
    have hsp := mSplit_props hinv hmem hcsub hcpos
    refine ⟨?_, ?_, ?_, ?_, ?_⟩
    · intro m hm
      exact (hsp m (List.mem_filter.mp hm).1).1
    · intro m hm c hc
      have hk := hsp m (List.mem_filter.mp hm).1
      rcases List.mem_append.mp hc with hc1 | hc2
      · obtain ⟨m0, hm0, hsub0⟩ := hk.2.2
        exact disj_of_sub_left hsub0 (hinv.mcCub m0 hm0 c hc1)
      · rw [List.mem_singleton.mp hc2]
        exact hk.2.1
    · intro c hc
      rcases List.mem_append.mp hc with hc1 | hc2
      · exact hinv.cubPos c hc1
      · rw [List.mem_singleton.mp hc2]
        exact ⟨hw2, hh2, hd⟩
    · intro c hc
      rcases List.mem_append.mp hc with hc1 | hc2
      · exact hinv.cubSub c hc1
      · rw [List.mem_singleton.mp hc2]
        exact sub_trans hcsub (hinv.mcOk mstar hmem).2.2.1
    · rw [List.pairwise_append]
      refine ⟨hinv.cubPw, List.pairwise_singleton _ _, ?_⟩
      intro a ha b hb
      rw [List.mem_singleton.mp hb]
      exact disj_symm (disj_of_sub_left hcsub (hinv.mcCub mstar hmem a ha))

theorem mInv_init {W H D : Int} (hpos : 0 < W ∧ 0 < H ∧ 0 < D) :
    MInv W H D (mInit W H D) := by
  constructor
  · intro m hm
    simp only [mInit, List.mem_singleton] at hm
    subst hm
    exact ⟨⟨hpos.1, hpos.2.1, hpos.2.2⟩, rfl, sub_refl _, rfl⟩
  · intro m _ c hc
    exact absurd hc (List.not_mem_nil c)
  · intro c hc
    exact absurd hc (List.not_mem_nil c)
  · intro c hc
    exact absurd hc (List.not_mem_nil c)
  · exact List.Pairwise.nil

theorem mAddCub_degenerate {v : MVariant} {rot : Bool} {W H D : Int}
    {w h d : Int} {rid : Option Nat}
    (hnp : ¬(0 < W ∧ 0 < H ∧ 0 < D))
    (hw : 0 < w) (hh : 0 < h) (hd : 0 < d) :
    mAddCub v rot (mInit W H D) w h d rid = (mInit W H D, .nofit) := by
  have hsel : selectPosition v rot (mInit W H D).maxCubs w h d = none := by
    cases hq : selectPosition v rot (mInit W H D).maxCubs w h d with
    | none => rfl
    | some cm =>
      obtain ⟨cub, mstar⟩ := cm
      obtain ⟨hmem, w2, h2, hor, _, f1, f2, f3⟩ := selectPosition_some hq
      simp only [mInit, List.mem_singleton] at hmem
      subst hmem
      exfalso
      apply hnp
      have hw2 : 0 < w2 := by rcases hor with ⟨rfl, _⟩ | ⟨rfl, _⟩ <;> omega
      have hh2 : 0 < h2 := by rcases hor with ⟨_, rfl⟩ | ⟨_, rfl⟩ <;> omega
      simp only [] at f1 f2 f3
      exact ⟨by omega, by omega, by omega⟩
  exact mAddCub_nofit hsel

theorem mFold_inv {v : MVariant} {rot : Bool} {W H D : Int} :
    ∀ (items : List (Int × Int × Int × Option Nat)) (st : MState),
    MInv W H D st → (∀ it ∈ items, 0 < it.1 ∧ 0 < it.2.1 ∧ 0 < it.2.2.1) →
    MInv W H D (items.foldl
      (fun st it => (mAddCub v rot st it.1 it.2.1 it.2.2.1 it.2.2.2).1) st) := by
  intro items
  induction items with
  | nil => intro st h _; exact h
  | cons it rest ih =>
    intro st h hpos
    have hit := hpos it (List.mem_cons_self _ _)
    exact ih _ (mInv_addCub hit.1 hit.2.1 hit.2.2 h)
      (fun x hx => hpos x (List.mem_cons_of_mem _ hx))

theorem mFold_degenerate {v : MVariant} {rot : Bool} {W H D : Int}
    (hnp : ¬(0 < W ∧ 0 < H ∧ 0 < D)) :
    ∀ (items : List (Int × Int × Int × Option Nat)),
    (∀ it ∈ items, 0 < it.1 ∧ 0 < it.2.1 ∧ 0 < it.2.2.1) →
    items.foldl
      (fun st it => (mAddCub v rot st it.1 it.2.1 it.2.2.1 it.2.2.2).1)
      (mInit W H D) = mInit W H D := by
  intro items
  induction items with
  | nil => intro _; rfl
  | cons it rest ih =>
    intro hpos
    have hit := hpos it (List.mem_cons_self _ _)
    simp only [List.foldl_cons,
      mAddCub_degenerate hnp hit.1 hit.2.1 hit.2.2]
    exact ih (fun x hx => hpos x (List.mem_cons_of_mem _ hx))

end Cubspack

namespace Cubspack

/-- Containment and strict non-overlap of a bin's placed-cuboid list,
stated with the source's own `contains` and `intersects` predicates. -/
def placedOk (w h d : Int) (cubs : List Cuboid) : Prop :=
  (∀ c ∈ cubs, Cuboid.contains (binCub w h d) c = true) ∧
  cubs.Pairwise (fun a b => Cuboid.intersects a b false = false)

theorem placedOk_of_ginv {cfg : GConf} {st : GState} (hinv : GInv cfg st) :
    placedOk cfg.width cfg.height cfg.depth st.cuboids := by
  constructor
  · intro c hc
    exact (contains_iff _ _).mpr (hinv.cubSub c hc)
  · refine List.Pairwise.imp_of_mem ?_ hinv.cubPw
    intro a b ha hb hd
    exact intersects_false_of_disj (hinv.cubPos a ha) (hinv.cubPos b hb) hd

theorem placedOk_of_minv {W H D : Int} {st : MState}
    (hinv : MInv W H D st) : placedOk W H D st.cuboids := by
  constructor
  · intro c hc
    exact (contains_iff _ _).mpr (hinv.cubSub c hc)
  · refine List.Pairwise.imp_of_mem ?_ hinv.cubPw
    intro a b ha hb hd
    exact intersects_false_of_disj (hinv.cubPos a ha) (hinv.cubPos b hb) hd

theorem placedOk_nil (w h d : Int) : placedOk w h d [] :=
  ⟨fun c hc => absurd hc (List.not_mem_nil c), List.Pairwise.nil⟩

/-- C1: for every Guillotine variant (any fitness criterion, split
rule, merge mode, rotation flag) and every MaxCubs variant, and every
sequence of `add_cub` calls with strictly positive dimensions, every
placed item lies fully inside the bin and no two placed items strictly
intersect (shared faces allowed).  Since every prefix of an item
sequence is itself an item sequence, the property holds after each
`add_cub` call. -/
theorem single_bin_containment_nonoverlap :
    (∀ (cfg : GConf) (items : List (Int × Int × Int × Option Nat)),
      (∀ it ∈ items, 0 < it.1 ∧ 0 < it.2.1 ∧ 0 < it.2.2.1) →
      placedOk cfg.width cfg.height cfg.depth (gRun cfg items).cuboids) ∧
    (∀ (v : MVariant) (rot : Bool) (bw bh bd : Int)
      (items : List (Int × Int × Int × Option Nat)),
      (∀ it ∈ items, 0 < it.1 ∧ 0 < it.2.1 ∧ 0 < it.2.2.1) →
      placedOk bw bh bd (mRun v rot bw bh bd items).cuboids) := by
  constructor
  · intro cfg items hpos
    by_cases hbin : 0 < cfg.width ∧ 0 < cfg.height ∧ 0 < cfg.depth
    · exact placedOk_of_ginv (gFold_inv items (gInit cfg)
        (gInv_init hbin) hpos)
    · unfold gRun
      rw [gFold_degenerate hbin items hpos, gInit_eq]
      exact placedOk_nil _ _ _
  · intro v rot bw bh bd items hpos
    by_cases hbin : 0 < bw ∧ 0 < bh ∧ 0 < bd
    · exact placedOk_of_minv (mFold_inv items (mInit bw bh bd)
        (mInv_init hbin) hpos)
    · unfold mRun
      rw [mFold_degenerate hbin items hpos]
      exact placedOk_nil _ _ _

/-- Witness for the invariant theorem at the concrete scenario inputs:
the positivity hypotheses hold and the conclusions evaluate on the S2
and S3 scenarios. -/
theorem single_bin_containment_nonoverlap_witness :
    (∀ it ∈ [((4 : Int), (4 : Int), (4 : Int), (none : Option Nat))],
      0 < it.1 ∧ 0 < it.2.1 ∧ 0 < it.2.2.1) ∧
    placedOk cfgS2.width cfgS2.height cfgS2.depth
      (gRun cfgS2 [(4, 4, 4, none)]).cuboids ∧
    placedOk 10 10 10 (mRun .bssf true 10 10 10 [(4, 4, 4, none)]).cuboids :=
  ⟨by decide,
   single_bin_containment_nonoverlap.1 cfgS2 [(4, 4, 4, none)] (by decide),
   single_bin_containment_nonoverlap.2 .bssf true 10 10 10
     [(4, 4, 4, none)] (by decide)⟩

end Cubspack

namespace Cubspack

/-- C5 amended: an `add_cub` for an item that no free region, no open
bin and no factory can take returns its failure sentinel without state
change: the single-bin algorithms and the BNF/BFF mixins return the
`None` sentinel (BNF after closing its open bins, which preserves the
`cub_list`), while the BBF mixin returns the boolean `False`.  No path
raises. -/
theorem add_cub_unplaceable_sentinels :
    (∀ (cfg : GConf) (st : GState) (w h d : Int) (rid : Option Nat),
      selectFittestSection cfg st.sections w h d = none →
      gAddCub cfg st w h d rid = (st, .nofit)) ∧
    (∀ (v : MVariant) (rot : Bool) (st : MState) (w h d : Int)
      (rid : Option Nat),
      selectPosition v rot st.maxCubs w h d = none →
      mAddCub v rot st w h d rid = (st, .nofit)) ∧
    (∀ (st : PackerState) (w h d : Int) (rid : Option Nat),
      (∀ b ∈ st.opened, binFitness b w h d = none) →
      (∀ kf ∈ st.factories,
        factoryFitsInside kf.2.width kf.2.height kf.2.depth st.rot
          w h d = false) →
      bnfAddCub (st.opened.length + 2 * totalFacCount st + 1) st w h d rid =
        ({ st with
            opened := [], closed := st.closed ++ st.opened }, .pyNone) ∧
      cubListOf ({ st with
        opened := [], closed := st.closed ++ st.opened } : PackerState) =
        cubListOf st ∧
      bffAddCub st w h d rid = (st, .pyNone) ∧
      bbfAddCub st w h d rid = (st, .pyBool false)) := by
  refine ⟨?_, ?_, ?_⟩
  · intro cfg st w h d rid h0
    exact gAddCub_nofit h0
  · intro v rot st w h d rid h0
    exact mAddCub_nofit h0
  · intro st w h d rid hbins hfacs
    refine ⟨?_, ?_, ?_, ?_⟩
    · exact bnfAddCub_all_reject st.opened st _ w h d rid rfl (by omega)
        hbins hfacs
    · simp [cubListOf]
    · exact bffAddCub_all_reject hbins hfacs
    · exact bbfAddCub_all_reject hbins hfacs

/-- A Best-Fit packer with no bins at all. -/
def emptyBbfPacker : PackerState :=
  { kind := .maxcubs .bssf, rot := true, closed := [], opened := [],
    factories := [], binCount := 0 }

/-- C5 counterexample: `PackerBBFMixin.add_cub` on an unplaceable item
returns the boolean `False`, not the `None` sentinel the claim
promises (the mixin's code paths return `True`/`False`). -/
theorem bbf_rejection_returns_false :
    bbfAddCub emptyBbfPacker 5 5 5 none = (emptyBbfPacker, .pyBool false) ∧
    PyRet.pyBool false ≠ PyRet.pyNone := by
  refine ⟨by decide, by decide⟩

/-- A packer with one open `MaxCubsBssf(5,5,5)` bin and one unused
`(4,4,4)` factory, used to witness the failure-sentinel theorem on the
unplaceable item `(9,9,9)`. -/
def c5WitnessPacker : PackerState :=
  { kind := .maxcubs .bssf, rot := true, closed := [],
    opened := [binNew (.maxcubs .bssf) 5 5 5 true],
    factories := [(0, ⟨4, 4, 4, 2⟩)], binCount := 1 }

/-- Witness: the failure-sentinel theorem applies to the concrete
packer above, whose open bin and factory both reject `(9,9,9)`. -/
theorem add_cub_unplaceable_sentinels_witness :
    (∀ b ∈ c5WitnessPacker.opened, binFitness b 9 9 9 = none) ∧
    bffAddCub c5WitnessPacker 9 9 9 none = (c5WitnessPacker, .pyNone) ∧
    bbfAddCub c5WitnessPacker 9 9 9 none =
      (c5WitnessPacker, .pyBool false) :=
  ⟨by decide,
   (add_cub_unplaceable_sentinels.2.2 c5WitnessPacker 9 9 9 none
     (by decide) (by decide)).2.2.1,
   (add_cub_unplaceable_sentinels.2.2 c5WitnessPacker 9 9 9 none
     (by decide) (by decide)).2.2.2⟩

/-- C9: `pack()` is deterministic — equal packer inputs (items, bin
templates, single-bin algorithm, heuristic, sort key, rotation flag)
give identical `cub_list()` and `bin_list()` output.  The embedding is
a pure function of the input, mirroring Python's deterministic
iteration order, stable sorting and first-minimum tie-breaking, so
determinism is structural. -/
theorem pack_deterministic (k : PackerKind) (o1 o2 : OffState)
    (hEq : o1 = o2) :
    cubListOf (packWith k o1) = cubListOf (packWith k o2) ∧
    binListOf (packWith k o1) = binListOf (packWith k o2) := by
  subst hEq
  exact ⟨rfl, rfl⟩

/-- Concrete off-line packer input used as determinism witness. -/
def detWitnessConf : OffState :=
  { kind := .maxcubs .bssf, rot := true, sortAlgo := id,
    availBins := [(5, 5, 5, 1)], availCub := [(3, 3, 3, some 1)] }

/-- Witness: determinism applied at a concrete input. -/
theorem pack_deterministic_witness :
    cubListOf (packWith .bbf detWitnessConf) =
      cubListOf (packWith .bbf detWitnessConf) ∧
    binListOf (packWith .bbf detWitnessConf) =
      binListOf (packWith .bbf detWitnessConf) :=
  pack_deterministic .bbf detWitnessConf detWitnessConf rfl

/-- A full off-line packer object: the preserved configuration and
pending lists (`_avail_bins`, `_avail_cub`, sort key, flags) plus the
bin state rebuilt by `pack()`. -/
structure OffPacker where
  conf : OffState
  online : PackerState

/-- `pack()` on the off-line packer object: reset and rebuild the bin
state from the preserved pending bins and items, which `pack()` never
mutates. -/
def offPack (k : PackerKind) (p : OffPacker) : OffPacker :=
  { p with online := packWith k p.conf }

/-- C10: for each off-line packer (BNF, BFF, BBF, Global), `pack()` is
idempotent — a second `pack()` with no intervening `add_cub`/`add_bin`
leaves `cub_list()` and `bin_list()` unchanged, because `pack()` resets
the bin state and replays the untouched pending bins and items. -/
theorem pack_idempotent (k : PackerKind) (p : OffPacker) :
    (offPack k p).conf = p.conf ∧
    cubListOf (offPack k (offPack k p)).online =
      cubListOf (offPack k p).online ∧
    binListOf (offPack k (offPack k p)).online =
      binListOf (offPack k p).online := by
  have h : offPack k (offPack k p) = offPack k p := rfl
  rw [h]
  exact ⟨rfl, rfl, rfl⟩

end Cubspack
